import Mathlib

/-!
Shallow embedding of the chess engine in `src/core/src/game.rs` of the
rusty-chess repository, together with theorems settling the frozen claims
about its specification.  Rust `char` coordinates are modelled as their
Unicode code points (`Nat`); the `u8` casts and saturating arithmetic of
the source are modelled explicitly.  `rayon` parallel sweeps are modelled
as sequential folds over the same square list: the engine only consumes
the collected results through membership, emptiness and head queries, so
the order chosen here is observationally equivalent.
-/

set_option maxRecDepth 100000
set_option maxHeartbeats 4000000

namespace Chess

/-- Piece colors, `Color` in the source. -/
inductive Color
  | White
  | Black
deriving DecidableEq, Repr

/-- Rust `Color::invert`. -/
def Color.invert : Color → Color
  | .White => .Black
  | .Black => .White

/-- Piece kinds, `PieceType` in the source. -/
inductive PieceType
  | Pawn
  | Bishop
  | Knight
  | King
  | Rook
  | Queen
deriving DecidableEq, Repr

/-- A chess piece, `Piece` in the source. -/
structure Piece where
  piece_type : PieceType
  color : Color
deriving DecidableEq, Repr

/-- A board coordinate: the two `char`s of Rust `Position(char, char)`, stored
as their Unicode code points.  On the board, `x` is the file `'a'`..`'h'`
(97..104) and `y` the rank `'1'`..`'8'` (49..56). -/
structure Position where
  x : Nat
  y : Nat
deriving DecidableEq, Repr

/-- The inner `checked_add` of `Position::add`: cast the char to `u8`
(`% 256`), then `u8` saturating subtraction (floors at 0) or saturating
addition (caps at 255) by the absolute value of the `i8` delta. -/
def checked_add (a : Nat) (b : Int) : Nat :=
  let b_abs := b.natAbs
  let a_u8 := a % 256
  if b < 0 then a_u8 - b_abs else min (a_u8 + b_abs) 255

/-- Rust `Position::add`: offset by a signed `(dx, dy)`, no boundary check. -/
def Position.add (p : Position) (to_add : Int × Int) : Position :=
  ⟨checked_add p.x to_add.1, checked_add p.y to_add.2⟩

/-- Rust `Position::as_index`: `(y as u8 - b'1') * 8 + (x as u8 - b'a')`.
Valid only for on-board positions; the `u8` casts are modelled by `% 256`
and the `u8` subtractions by truncated `Nat` subtraction. -/
def Position.as_index (p : Position) : Nat :=
  ((p.y % 256) - 49) * 8 + ((p.x % 256) - 97)

/-- Rust `Position::try_as_index`: `none` when either coordinate is outside
files `'a'`..`'h'` or ranks `'1'`..`'8'`. -/
def Position.try_as_index (p : Position) : Option Nat :=
  if p.x < 97 || 104 < p.x || p.y < 49 || 56 < p.y then none
  else some p.as_index

/-- Move kinds, `MoveType` in the source. -/
inductive MoveType
  | Normal
  | Jump
  | Enpassant
  | LongCastle
  | ShortCastle
deriving DecidableEq, Repr

/-- A generated move, `Move` in the source.  The Rust fields `from`/`to` are
named `fromPos`/`toPos` here because `from` is a Lean keyword. -/
structure Move where
  piece : Piece
  fromPos : Position
  toPos : Position
  captured_piece : Option Piece
  move_type : MoveType
  traversed_squares : List Position
deriving DecidableEq, Repr

/-- Obstacle classification, `Obstacle` in the source. -/
inductive Obstacle
  | OutOfBoundary
  | Piece (color : Color)
deriving DecidableEq, Repr

/-- User actions, `UserInput` in the source. -/
inductive UserInput
  | Move (fromPos toPos : Position)
  | Promotion (piece : Piece) (pos : Position)
  | Draw
  | Resign
deriving DecidableEq, Repr

/-- Engine outcomes, `UserOutput` in the source. -/
inductive UserOutput
  | CheckMate
  | StaleMate
  | InvalidMove
  | Promotion (pos : Position)
  | Draw
deriving DecidableEq, Repr

/-- The board: `[Option<Piece>; 64]`, index `(rank - 1) * 8 + (file - a)`. -/
abbrev Board := List (Option Piece)

/-- Read a board slot (Rust `self.board[i]`; all verified call sites are
guarded so the index is in range, where `getD` agrees with Rust). -/
def boardGet (b : Board) (i : Nat) : Option Piece := b.getD i none

/-- Write a board slot (Rust `self.board[i] = v`). -/
def boardSet (b : Board) (i : Nat) (v : Option Piece) : Board := b.set i v

/-- Rust `[T; COLOR_COUNT]` read, indexed by `color as usize`. -/
def colorIdx {α : Type} (p : α × α) : Color → α
  | .White => p.1
  | .Black => p.2

/-- Rust `[T; COLOR_COUNT]` write at `color as usize`. -/
def colorSet {α : Type} (p : α × α) (c : Color) (v : α) : α × α :=
  match c with
  | .White => (v, p.2)
  | .Black => (p.1, v)

/-- The full game state, `Game` in the source.  The `HashMap` of repeated
board states is modelled as an association list (only containment and
per-key counts are consumed). -/
structure Game where
  turn : Color
  board : Board
  captured : List Piece × List Piece
  history : List Move
  number_of_repeated_board_states : List ((Color × Board × List Move) × Nat)
  number_of_moves_without_captures_or_pawn_moves : Nat
  able_to_long_castle : Bool × Bool
  able_to_short_castle : Bool × Bool
  protected_squares : List Position × List Position
  pieces_attacking_king : List (Piece × List Position) × List (Piece × List Position)
deriving DecidableEq, Repr

/-- Rust `ALL_POSSIBLE_SQUARES`: files outermost, ranks innermost. -/
def ALL_POSSIBLE_SQUARES : List Position :=
  (List.range 8).flatMap fun i => (List.range 8).map fun j => ⟨97 + i, 49 + j⟩

/-- The `forward` step array `[1, ..., 8]` of the direction constants. -/
def forward_steps : List Int := [1, 2, 3, 4, 5, 6, 7, 8]

/-- The `backward` step array `[-1, ..., -8]` of the direction constants. -/
def backward_steps : List Int := [-1, -2, -3, -4, -5, -6, -7, -8]

/-- The all-zero step array of the direction constants. -/
def zero_steps : List Int := [0, 0, 0, 0, 0, 0, 0, 0]

/-- Rust `HORIZONTAL_DIRECTIONS`. -/
def HORIZONTAL_DIRECTIONS : List (List Int × List Int) :=
  [(forward_steps, zero_steps), (backward_steps, zero_steps),
   (zero_steps, forward_steps), (zero_steps, backward_steps)]

/-- Rust `DIAGONAL_DIRECTIONS`. -/
def DIAGONAL_DIRECTIONS : List (List Int × List Int) :=
  [(forward_steps, forward_steps), (forward_steps, backward_steps),
   (backward_steps, forward_steps), (backward_steps, backward_steps)]

/-- Rust `QUEEN_DIRECTIONS`. -/
def QUEEN_DIRECTIONS : List (List Int × List Int) :=
  HORIZONTAL_DIRECTIONS ++ DIAGONAL_DIRECTIONS

/-- Rust `Game::obstacles_in_one_move` (it reads only the board, which is
what is passed here). -/
def obstacles_in_one_move (board : Board) (pos : Position) : Option Obstacle :=
  match pos.try_as_index with
  | none => some .OutOfBoundary
  | some index =>
    match boardGet board index with
    | none => none
    | some p => some (.Piece p.color)

/-- Rust `Game::check`: the cached attacker list for `color` is non-empty. -/
def check (g : Game) (color : Color) : Bool :=
  !(colorIdx g.pieces_attacking_king color).isEmpty

/-- Rust `Game::pos_protected`: membership in the cached protected squares
of `color`. -/
def pos_protected (g : Game) (pos : Position) (color : Color) : Bool :=
  (colorIdx g.protected_squares color).any fun pp => pos == pp

/-- Rust `Game::can_short_castle`. -/
def can_short_castle (g : Game) (color : Color) : Bool :=
  match color with
  | .Black =>
      !check g color
      && colorIdx g.able_to_short_castle color
      && (boardGet g.board (Position.as_index ⟨102, 56⟩)).isNone
      && (boardGet g.board (Position.as_index ⟨103, 56⟩)).isNone
      && !pos_protected g ⟨102, 56⟩ color.invert
      && !pos_protected g ⟨103, 56⟩ color.invert
  | .White =>
      !check g color
      && colorIdx g.able_to_short_castle color
      && (boardGet g.board (Position.as_index ⟨102, 49⟩)).isNone
      && (boardGet g.board (Position.as_index ⟨103, 49⟩)).isNone
      && !pos_protected g ⟨102, 49⟩ color.invert
      && !pos_protected g ⟨103, 49⟩ color.invert

/-- Rust `Game::can_long_castle`. -/
def can_long_castle (g : Game) (color : Color) : Bool :=
  match color with
  | .Black =>
      !check g color
      && colorIdx g.able_to_long_castle color
      && (boardGet g.board (Position.as_index ⟨98, 56⟩)).isNone
      && (boardGet g.board (Position.as_index ⟨99, 56⟩)).isNone
      && (boardGet g.board (Position.as_index ⟨100, 56⟩)).isNone
      && !pos_protected g ⟨99, 56⟩ color.invert
      && !pos_protected g ⟨100, 56⟩ color.invert
  | .White =>
      !check g color
      && colorIdx g.able_to_long_castle color
      && (boardGet g.board (Position.as_index ⟨98, 49⟩)).isNone
      && (boardGet g.board (Position.as_index ⟨99, 49⟩)).isNone
      && (boardGet g.board (Position.as_index ⟨100, 49⟩)).isNone
      && !pos_protected g ⟨99, 49⟩ color.invert
      && !pos_protected g ⟨100, 49⟩ color.invert

/-- Rust `Game::get_moves_in_one_direction`, recursing over the zipped
step lists with the accumulated `traversed_squares`. -/
def get_moves_in_one_direction (board : Board) (pos : Position) (piece : Piece)
    (get_protected : Bool) : List (Int × Int) → List Position → List Move
  | [], _ => []
  | (dx, dy) :: path, traversed_squares =>
    let new_pos := pos.add (dx, dy)
    match obstacles_in_one_move board new_pos with
    | some (.Piece obstacle_color) =>
      if get_protected || obstacle_color != piece.color then
        [{ piece := piece, move_type := .Normal, fromPos := pos, toPos := new_pos,
           traversed_squares := traversed_squares ++ [new_pos],
           captured_piece := boardGet board new_pos.as_index }]
      else []
    | some .OutOfBoundary => []
    | none =>
      { piece := piece, move_type := .Normal, fromPos := pos, toPos := new_pos,
        traversed_squares := traversed_squares ++ [new_pos],
        captured_piece := boardGet board new_pos.as_index } ::
      get_moves_in_one_direction board pos piece get_protected path
        (traversed_squares ++ [new_pos])

/-- Rust `Game::possible_horizontal_vertical_moves`. -/
def possible_horizontal_vertical_moves (g : Game) (pos : Position) (piece : Piece)
    (get_protected : Bool) : List Move :=
  HORIZONTAL_DIRECTIONS.flatMap fun d =>
    get_moves_in_one_direction g.board pos piece get_protected (d.1.zip d.2) [pos]

/-- Rust `Game::possible_diagonal_moves`. -/
def possible_diagonal_moves (g : Game) (pos : Position) (piece : Piece)
    (get_protected : Bool) : List Move :=
  DIAGONAL_DIRECTIONS.flatMap fun d =>
    get_moves_in_one_direction g.board pos piece get_protected (d.1.zip d.2) [pos]

/-- Rust `Game::possible_queen_moves`. -/
def possible_queen_moves (g : Game) (pos : Position) (piece : Piece)
    (get_protected : Bool) : List Move :=
  QUEEN_DIRECTIONS.flatMap fun d =>
    get_moves_in_one_direction g.board pos piece get_protected (d.1.zip d.2) [pos]

/-- The non-capturing forward loop of `Game::possbile_pawn_moves`
(breaks at the first obstacle). -/
def pawn_forward_moves (board : Board) (pos : Position) (piece : Piece)
    (direction : Int) : List Int → List Move
  | [] => []
  | y :: rest =>
    let new_pos := pos.add (0, direction * y)
    match obstacles_in_one_move board new_pos with
    | none =>
      { piece := piece, move_type := .Normal, fromPos := pos, toPos := new_pos,
        traversed_squares := [pos, new_pos],
        captured_piece := boardGet board new_pos.as_index } ::
      pawn_forward_moves board pos piece direction rest
    | _ => []

/-- The diagonal capture loop of `Game::possbile_pawn_moves` (reads only
the board). -/
def pawn_capture_moves (board : Board) (pos : Position) (piece : Piece)
    (get_protected : Bool) (direction : Int) : List Move :=
  ([(1, direction), (-1, direction)] : List (Int × Int)).flatMap fun new_pos_int =>
    let new_pos := pos.add new_pos_int
    match obstacles_in_one_move board new_pos with
    | some (.Piece other_piece_color) =>
      if get_protected || other_piece_color != piece.color then
        [{ piece := piece, move_type := .Normal, fromPos := pos, toPos := new_pos,
           traversed_squares := [pos, new_pos],
           captured_piece := boardGet board new_pos.as_index }]
      else []
    | none =>
      if get_protected then
        [{ piece := piece, move_type := .Normal, fromPos := pos, toPos := new_pos,
           traversed_squares := [pos, new_pos],
           captured_piece := boardGet board new_pos.as_index }]
      else []
    | some .OutOfBoundary => []

/-- The en passant block of `Game::possbile_pawn_moves` (reads only the
board and the move history). -/
def pawn_enpassant_moves (board : Board) (history : List Move) (pos : Position)
    (piece : Piece) (direction : Int) : List Move :=
  match history.getLast? with
  | some last_move =>
    if last_move.piece.piece_type == .Pawn
        && ((last_move.fromPos.y : Int) - (last_move.toPos.y : Int)).natAbs == 2
        && (last_move.toPos == pos.add (1, 0) || last_move.toPos == pos.add (-1, 0)) then
      let new_pos :=
        if last_move.toPos == pos.add (1, 0) then pos.add (1, direction)
        else pos.add (-1, direction)
      [{ piece := piece, move_type := .Enpassant, fromPos := pos, toPos := new_pos,
         traversed_squares := [pos, new_pos],
         captured_piece := boardGet board ((new_pos.add (0, -direction)).as_index) }]
    else []
  | none => []

/-- Rust `Game::possbile_pawn_moves` (source spelling kept; reads only the
board and the move history, which is what is passed here). -/
def possbile_pawn_moves (board : Board) (history : List Move) (pos : Position)
    (piece : Piece) (get_protected : Bool) : List Move :=
  let direction : Int := if piece.color == .White then 1 else -1
  let rel_pos_to_iter : List Int :=
    if piece.color == .White then (if pos.y == 50 then [1, 2] else [1])
    else (if pos.y == 55 then [1, 2] else [1])
  (if !get_protected then pawn_forward_moves board pos piece direction rel_pos_to_iter else [])
  ++ pawn_capture_moves board pos piece get_protected direction
  ++ (if !get_protected then pawn_enpassant_moves board history pos piece direction else [])

/-- Rust `Game::possible_knight_moves` (reads only the board). -/
def possible_knight_moves (board : Board) (pos : Position) (piece : Piece)
    (get_protected : Bool) : List Move :=
  ([(2, 1), (2, -1), (-2, 1), (-2, -1), (1, 2), (-1, 2), (1, -2), (-1, -2)] :
      List (Int × Int)).flatMap fun dxdy =>
    let new_pos := pos.add dxdy
    match obstacles_in_one_move board new_pos with
    | none =>
      [{ piece := piece, move_type := .Jump, fromPos := pos, toPos := new_pos,
         traversed_squares := [pos, new_pos],
         captured_piece := boardGet board new_pos.as_index }]
    | some (.Piece obstacle_color) =>
      if get_protected || piece.color != obstacle_color then
        [{ piece := piece, move_type := .Jump, fromPos := pos, toPos := new_pos,
           traversed_squares := [pos, new_pos],
           captured_piece := boardGet board new_pos.as_index }]
      else []
    | some .OutOfBoundary => []

/-- Rust `Game::possible_king_moves`. -/
def possible_king_moves (g : Game) (pos : Position) (piece : Piece)
    (get_protected : Bool) : List Move :=
  (([(-1, 1), (0, 1), (1, 1), (1, 0), (1, -1), (0, -1), (-1, -1), (-1, 0)] :
      List (Int × Int)).flatMap fun d =>
    let new_pos := pos.add d
    match obstacles_in_one_move g.board new_pos with
    | none =>
      if get_protected || !pos_protected g new_pos piece.color.invert then
        [{ piece := piece, move_type := .Normal, fromPos := pos, toPos := new_pos,
           traversed_squares := [pos, new_pos],
           captured_piece := boardGet g.board new_pos.as_index }]
      else []
    | some (.Piece obstacle_color) =>
      if get_protected
          || (!pos_protected g new_pos piece.color.invert && piece.color != obstacle_color) then
        [{ piece := piece, move_type := .Normal, fromPos := pos, toPos := new_pos,
           traversed_squares := [pos, new_pos],
           captured_piece := boardGet g.board new_pos.as_index }]
      else []
    | some .OutOfBoundary => [])
  ++ (if !get_protected && can_long_castle g piece.color then
      [{ piece := piece, move_type := .LongCastle, fromPos := pos, toPos := pos.add (-2, 0),
         traversed_squares := [pos, pos.add (-1, 0), pos.add (-2, 0)],
         captured_piece := boardGet g.board ((pos.add (-2, 0)).as_index) }]
    else [])
  ++ (if !get_protected && can_short_castle g piece.color then
      [{ piece := piece, move_type := .ShortCastle, fromPos := pos, toPos := pos.add (2, 0),
         traversed_squares := [pos, pos.add (1, 0), pos.add (2, 0)],
         captured_piece := boardGet g.board ((pos.add (2, 0)).as_index) }]
    else [])

/-- Rust `Game::possible_moves` with `filter_pinned = false`: dispatch on the
piece type, then the double-check cutoff and the single-check path filter.
The pin filter itself is added in `possible_moves` below; with
`filter_pinned = false` the source applies exactly this function. -/
def possible_moves_unfiltered (g : Game) (pos : Position) (get_protected : Bool) :
    List Move :=
  match boardGet g.board pos.as_index with
  | none => []
  | some piece =>
    if !get_protected && check g piece.color
        && decide (1 < (colorIdx g.pieces_attacking_king piece.color).length)
        && piece.piece_type != .King then []
    else
      let moves :=
        match piece.piece_type with
        | .King => possible_king_moves g pos piece get_protected
        | .Queen => possible_queen_moves g pos piece get_protected
        | .Rook => possible_horizontal_vertical_moves g pos piece get_protected
        | .Bishop => possible_diagonal_moves g pos piece get_protected
        | .Knight => possible_knight_moves g.board pos piece get_protected
        | .Pawn => possbile_pawn_moves g.board g.history pos piece get_protected
      if !get_protected && check g piece.color && piece.piece_type != .King then
        match (colorIdx g.pieces_attacking_king piece.color).head? with
        | some attacker => moves.filter fun x => attacker.2.contains x.toPos
        | none => moves
      else moves

/-- Rust `Game::get_all_protected_squares` at `filter_pinned = false`
(the call made inside `piece_is_not_pinned`): per occupied square, collect
the destinations of `possible_moves(pos, true, false)` into the mover
color's list. -/
def get_all_protected_squares_nf (g : Game) : List Position × List Position :=
  let contribs := ALL_POSSIBLE_SQUARES.flatMap fun p =>
    match boardGet g.board p.as_index with
    | some piece => (possible_moves_unfiltered g p true).map fun m => (piece.color, m.toPos)
    | none => []
  (contribs.filterMap fun cp => if cp.1 == Color.White then some cp.2 else none,
   contribs.filterMap fun cp => if cp.1 == Color.Black then some cp.2 else none)

/-- Rust `Game::pieces_attacking_king` at `filter_pinned = false` (the call
made inside `piece_is_not_pinned`): collect, from every square's
`possible_moves(pos, false, false)`, the moves that capture a king; a White
attacker threatens the Black king and vice versa. -/
def pieces_attacking_king_nf (g : Game) :
    List (Piece × List Position) × List (Piece × List Position) :=
  let contribs := ALL_POSSIBLE_SQUARES.flatMap fun p =>
    (possible_moves_unfiltered g p false).filterMap fun mv =>
      match mv.captured_piece with
      | some piece =>
        if piece.piece_type == .King then some (mv.piece.color, (mv.piece, mv.traversed_squares))
        else none
      | none => none
  (contribs.filterMap fun cp => if cp.1 == Color.Black then some cp.2 else none,
   contribs.filterMap fun cp => if cp.1 == Color.White then some cp.2 else none)

/-- The board updates of Rust `Game::piece_is_not_pinned`: clear the
origin, set the destination, and remove the en passant victim. -/
def simulated_board (b : Board) (mv : Move) : Board :=
  let b2 := boardSet (boardSet b mv.fromPos.as_index none) mv.toPos.as_index (some mv.piece)
  if mv.move_type == .Enpassant then
    let direction : Int := if mv.piece.color == .White then 1 else -1
    boardSet b2 ((mv.toPos.add (0, -direction)).as_index) none
  else b2

/-- The throwaway clone built by Rust `Game::piece_is_not_pinned`: invert the
turn, perform the move on the board (including the en passant capture
removal), then recompute the protected squares and the king attackers with
`filter_pinned = false`. -/
def simulate_move (g : Game) (mv : Move) : Game :=
  let game_after_move := { g with
    turn := g.turn.invert,
    board := simulated_board g.board mv }
  let game_after_move := { game_after_move with
    protected_squares := get_all_protected_squares_nf game_after_move }
  { game_after_move with
    pieces_attacking_king := pieces_attacking_king_nf game_after_move }

/-- Rust `Game::piece_is_not_pinned`: the mover's king has no attackers in
the simulated state. -/
def piece_is_not_pinned (g : Game) (mv : Move) : Bool :=
  (colorIdx (simulate_move g mv).pieces_attacking_king mv.piece.color).isEmpty

/-- Rust `Game::possible_moves`: the unfiltered moves, then the pin filter
when `filter_pinned` is set. -/
def possible_moves (g : Game) (pos : Position) (get_protected filter_pinned : Bool) :
    List Move :=
  let moves := possible_moves_unfiltered g pos get_protected
  if filter_pinned then moves.filter fun x => piece_is_not_pinned g x else moves

/-- Rust `Game::get_all_protected_squares` for an arbitrary `filter_pinned`
flag (agrees with `get_all_protected_squares_nf` at `false`). -/
def get_all_protected_squares (g : Game) (filter_pinned : Bool) :
    List Position × List Position :=
  let contribs := ALL_POSSIBLE_SQUARES.flatMap fun p =>
    match boardGet g.board p.as_index with
    | some piece => (possible_moves g p true filter_pinned).map fun m => (piece.color, m.toPos)
    | none => []
  (contribs.filterMap fun cp => if cp.1 == Color.White then some cp.2 else none,
   contribs.filterMap fun cp => if cp.1 == Color.Black then some cp.2 else none)

/-- Rust `Game::pieces_attacking_king` for an arbitrary `filter_pinned`
flag (agrees with `pieces_attacking_king_nf` at `false`). -/
def pieces_attacking_king_fn (g : Game) (filter_pinned : Bool) :
    List (Piece × List Position) × List (Piece × List Position) :=
  let contribs := ALL_POSSIBLE_SQUARES.flatMap fun p =>
    (possible_moves g p false filter_pinned).filterMap fun mv =>
      match mv.captured_piece with
      | some piece =>
        if piece.piece_type == .King then some (mv.piece.color, (mv.piece, mv.traversed_squares))
        else none
      | none => none
  (contribs.filterMap fun cp => if cp.1 == Color.Black then some cp.2 else none,
   contribs.filterMap fun cp => if cp.1 == Color.White then some cp.2 else none)

/-- Rust `Game::no_possible_moves`: no square whose (pin-filtered) move list
is non-empty and headed by a piece of `color`. -/
def no_possible_moves (g : Game) (color : Color) : Bool :=
  !(ALL_POSSIBLE_SQUARES.any fun p =>
    match (possible_moves g p false true).head? with
    | some m => m.piece.color == color
    | none => false)

/-- Rust `Game::get_all_possible_moves` (the repetition-table key builder). -/
def get_all_possible_moves (g : Game) : List Move :=
  ALL_POSSIBLE_SQUARES.flatMap fun p =>
    if (boardGet g.board p.as_index).isSome then possible_moves g p true true else []

/-- Rust `Game::is_a_draw`. -/
def is_a_draw (g : Game) : Bool :=
  if 50 ≤ g.number_of_moves_without_captures_or_pawn_moves then true
  else g.number_of_repeated_board_states.any fun kv => 3 ≤ kv.2

/-- Rust `Game::get_move_if_valid`. -/
def get_move_if_valid (g : Game) (fromP toP : Position) : Option Move :=
  match obstacles_in_one_move g.board fromP with
  | some (.Piece piece_color) =>
    if g.turn == piece_color then
      match (possible_moves g fromP false true).filter (fun x => x.toPos == toP) with
      | [] => none
      | m :: _ => some m
    else none
  | _ => none

/-- Rust `Game::get_valid_moves`. -/
def get_valid_moves (g : Game) (pos : Position) : List Move :=
  possible_moves g pos false true

/-- Rust `Game::get_all_currently_valid_moves`. -/
def get_all_currently_valid_moves (g : Game) : List Move :=
  ALL_POSSIBLE_SQUARES.flatMap fun p =>
    match boardGet g.board p.as_index with
    | some piece => if piece.color == g.turn then get_valid_moves g p else []
    | none => []

/-- Lookup in the modelled `HashMap` of repeated board states. -/
def rep_lookup (m : List ((Color × Board × List Move) × Nat))
    (k : Color × Board × List Move) : Option Nat :=
  (m.find? fun kv => kv.1 == k).map fun kv => kv.2

/-- Insert (or overwrite) in the modelled `HashMap` of repeated board states. -/
def rep_insert (m : List ((Color × Board × List Move) × Nat))
    (k : Color × Board × List Move) (v : Nat) :
    List ((Color × Board × List Move) × Nat) :=
  if m.any (fun kv => kv.1 == k) then
    m.map fun kv => if kv.1 == k then (kv.1, v) else kv
  else m ++ [(k, v)]

/-- The board mutations of `process_input` on a validated non-promotion
move: clear the origin, set the destination, then the en passant capture
removal and the castling rook relocation. -/
def moved_board (b : Board) (mv : Move) (fromP toP : Position) : Board :=
  let b := boardSet (boardSet b fromP.as_index none) toP.as_index (some mv.piece)
  let b :=
    if mv.move_type == .Enpassant then
      let direction : Int := if mv.piece.color == .White then 1 else -1
      boardSet b ((mv.toPos.add (0, -direction)).as_index) none
    else b
  let b :=
    if mv.move_type == .LongCastle then
      if mv.piece.color == .White then
        boardSet (boardSet b (Position.as_index ⟨97, 49⟩) none)
          (Position.as_index ⟨100, 49⟩) (some ⟨.Rook, .White⟩)
      else
        boardSet (boardSet b (Position.as_index ⟨97, 56⟩) none)
          (Position.as_index ⟨100, 56⟩) (some ⟨.Rook, .Black⟩)
    else b
  if mv.move_type == .ShortCastle then
    if mv.piece.color == .White then
      boardSet (boardSet b (Position.as_index ⟨104, 49⟩) none)
        (Position.as_index ⟨102, 49⟩) (some ⟨.Rook, .White⟩)
    else
      boardSet (boardSet b (Position.as_index ⟨104, 56⟩) none)
        (Position.as_index ⟨102, 56⟩) (some ⟨.Rook, .Black⟩)
  else b

/-- The two cache recomputations `process_input` performs after every
mutation, in the fixed source order: protected squares first, then the
king attackers (each with `filter_pinned = true`). -/
def recompute_caches (g : Game) : Game :=
  let g1 := { g with protected_squares := get_all_protected_squares g true }
  { g1 with pieces_attacking_king := pieces_attacking_king_fn g1 true }

/-- The captured-piece push of `process_input`. -/
def update_captured (g : Game) (mv : Move) : Game :=
  match mv.captured_piece with
  | some captured_piece =>
    let cap := colorIdx g.captured mv.piece.color ++ [captured_piece]
    { g with captured := colorSet g.captured mv.piece.color cap }
  | none => g

/-- The castling-rights update of `process_input`. -/
def update_castling_rights (g : Game) (mv : Move) : Game :=
  if (mv.piece.piece_type == .King || mv.piece.piece_type == .Rook)
      && (colorIdx g.able_to_long_castle mv.piece.color
          || colorIdx g.able_to_short_castle mv.piece.color) then
    if mv.piece.piece_type == .King then
      { g with
        able_to_short_castle := colorSet g.able_to_short_castle mv.piece.color false,
        able_to_long_castle := colorSet g.able_to_long_castle mv.piece.color false }
    else
      let long_caste_pos : Position :=
        if mv.piece.color == .White then ⟨97, 49⟩ else ⟨97, 56⟩
      let short_caste_pos : Position :=
        if mv.piece.color == .White then ⟨104, 49⟩ else ⟨104, 56⟩
      if mv.fromPos == long_caste_pos then
        { g with able_to_long_castle := colorSet g.able_to_long_castle mv.piece.color false }
      else if mv.fromPos == short_caste_pos then
        { g with able_to_short_castle := colorSet g.able_to_short_castle mv.piece.color false }
      else g
  else g

/-- The fifty-move counter update of `process_input`: incremented (as a
`u8`, hence `% 256`) on a quiet move, reset to 0 on a capture or pawn
move. -/
def update_fifty_counter (g : Game) (mv : Move) : Game :=
  if !(mv.captured_piece.isSome || mv.piece.piece_type == .Pawn) then
    let n := (g.number_of_moves_without_captures_or_pawn_moves + 1) % 256
    { g with number_of_moves_without_captures_or_pawn_moves := n }
  else
    { g with number_of_moves_without_captures_or_pawn_moves := 0 }

/-- The history push of `process_input`. -/
def push_history (g : Game) (mv : Move) : Game :=
  { g with history := g.history ++ [mv] }

/-- The repetition-table update of `process_input`: key the current turn,
board and full move set, then increment the entry (the count is a `u8`, so
`num_pos + 1` wraps, hence `% 256`) or create it at 1. -/
def update_repetition_table (g : Game) : Game :=
  let key := (g.turn, g.board, get_all_possible_moves g)
  match rep_lookup g.number_of_repeated_board_states key with
  | some num_pos =>
    let reps := rep_insert g.number_of_repeated_board_states key ((num_pos + 1) % 256)
    { g with number_of_repeated_board_states := reps }
  | none =>
    let reps := rep_insert g.number_of_repeated_board_states key 1
    { g with number_of_repeated_board_states := reps }

/-- The state mutations Rust `Game::process_input` performs on a validated
non-promotion move, in source order: turn flip and board update (with the
en passant and castling side effects), cache recomputation, captured-list
push, castling-rights update, fifty-move counter update, history push, and
the repetition-table update. -/
def apply_valid_move (g : Game) (mv : Move) (fromP toP : Position) : Game :=
  let g1 := { g with turn := g.turn.invert, board := moved_board g.board mv fromP toP }
  update_repetition_table (push_history (update_fifty_counter
    (update_castling_rights (update_captured (recompute_caches g1) mv) mv) mv) mv)

/-- Rust `Game::process_input`.  The result is the returned
`Option<UserOutput>` paired with the mutated state; the outer `Option` is
`none` exactly where the source aborts (`unreachable!()` on `Draw` and
`Resign`). -/
def process_input (g : Game) (user_input : UserInput) :
    Option (Option UserOutput × Game) :=
  match user_input with
  | .Move fromP toP =>
    match get_move_if_valid g fromP toP with
    | some mv =>
      if mv.piece.piece_type == .Pawn && mv.move_type == .Normal
          && (mv.toPos.y == 56 || mv.toPos.y == 49) then
        some (some (.Promotion mv.toPos),
          { g with
            board := boardSet (boardSet g.board fromP.as_index none)
              toP.as_index (some mv.piece),
            history := g.history ++ [mv] })
      else
        let gF := apply_valid_move g mv fromP toP
        if no_possible_moves gF gF.turn then
          if check gF gF.turn then some (some .CheckMate, gF)
          else some (some .StaleMate, gF)
        else if is_a_draw gF then some (some .Draw, gF)
        else some (none, gF)
    | none => some (some .InvalidMove, g)
  | .Promotion piece pos =>
    let g1 := { g with turn := g.turn.invert,
                       board := boardSet g.board pos.as_index (some piece) }
    let g3 := recompute_caches g1
    if no_possible_moves g3 g3.turn then
      if check g3 g3.turn then some (some .CheckMate, g3)
      else some (some .StaleMate, g3)
    else some (none, g3)
  | .Draw => none
  | .Resign => none

/-- The starting-position occupant of the square with file char `x` and rank
char `y` (the `match (x, y)` of `Game::new`). -/
def initial_piece (x y : Nat) : Option Piece :=
  if y == 50 then some ⟨.Pawn, .White⟩
  else if y == 55 then some ⟨.Pawn, .Black⟩
  else if (x == 97 || x == 104) && y == 49 then some ⟨.Rook, .White⟩
  else if (x == 97 || x == 104) && y == 56 then some ⟨.Rook, .Black⟩
  else if (x == 98 || x == 103) && y == 49 then some ⟨.Knight, .White⟩
  else if (x == 98 || x == 103) && y == 56 then some ⟨.Knight, .Black⟩
  else if (x == 99 || x == 102) && y == 49 then some ⟨.Bishop, .White⟩
  else if (x == 99 || x == 102) && y == 56 then some ⟨.Bishop, .Black⟩
  else if x == 100 && y == 49 then some ⟨.Queen, .White⟩
  else if x == 100 && y == 56 then some ⟨.Queen, .Black⟩
  else if x == 101 && y == 49 then some ⟨.King, .White⟩
  else if x == 101 && y == 56 then some ⟨.King, .Black⟩
  else none

/-- The starting board of `Game::new`, laid out by `as_index`. -/
def game_new_board : Board :=
  (List.range 64).map fun i => initial_piece (97 + i % 8) (49 + i / 8)

/-- The initial White protected squares of `Game::new` (the source condition
`x != 'a' || x != 'h'` is a tautology, so rank 1 is pushed for every file). -/
def game_new_protected_white : List Position :=
  (List.range 8).flatMap fun i => [⟨97 + i, 51⟩, ⟨97 + i, 50⟩, ⟨97 + i, 49⟩]

/-- The initial Black protected squares of `Game::new` (same tautology for
rank 8). -/
def game_new_protected_black : List Position :=
  (List.range 8).flatMap fun i => [⟨97 + i, 54⟩, ⟨97 + i, 55⟩, ⟨97 + i, 56⟩]

/-- Rust `Game::new`: the standard starting position, White to move, plus
the initial repetition-table entry. -/
def Game.new : Game :=
  let game : Game := {
    turn := .White,
    board := game_new_board,
    captured := ([], []),
    history := [],
    protected_squares := (game_new_protected_white, game_new_protected_black),
    pieces_attacking_king := ([], []),
    number_of_moves_without_captures_or_pawn_moves := 0,
    number_of_repeated_board_states := [],
    able_to_long_castle := (true, true),
    able_to_short_castle := (true, true) }
  let key := (game.turn, game.board, get_all_possible_moves game)
  let reps := rep_insert game.number_of_repeated_board_states key 1
  { game with number_of_repeated_board_states := reps }

/-!
Test fixtures: sparse hand-built game states used to instantiate the
theorems below at concrete inputs.  `recompute_caches` is applied to each
so the fixtures carry caches consistent with their boards, exactly as
`process_input` maintains them.
-/

/-- Build a board from an explicit list of placed pieces. -/
def board_of (ps : List (Position × Piece)) : Board :=
  ps.foldl (fun b pp => boardSet b pp.1.as_index (some pp.2)) (List.replicate 64 none)

/-- A bare game state with the given turn and pieces, castling disabled,
empty history, and caches not yet refreshed. -/
def base_game (turnC : Color) (ps : List (Position × Piece)) : Game :=
  { turn := turnC,
    board := board_of ps,
    captured := ([], []),
    history := [],
    number_of_repeated_board_states := [],
    number_of_moves_without_captures_or_pawn_moves := 0,
    able_to_long_castle := (false, false),
    able_to_short_castle := (false, false),
    protected_squares := ([], []),
    pieces_attacking_king := ([], []) }

/-- Fixture: White king e1, Black king e8, White knight g1, White to move. -/
def g_knight : Game :=
  recompute_caches (base_game .White
    [(⟨101, 49⟩, ⟨.King, .White⟩), (⟨101, 56⟩, ⟨.King, .Black⟩),
     (⟨103, 49⟩, ⟨.Knight, .White⟩)])

/-- The knight move g1-f3 on `g_knight`. -/
def mv_knight : Move :=
  { piece := ⟨.Knight, .White⟩, fromPos := ⟨103, 49⟩, toPos := ⟨102, 51⟩,
    captured_piece := none, move_type := .Jump,
    traversed_squares := [⟨103, 49⟩, ⟨102, 51⟩] }

/-- Rank char of the castling back rank for a color. -/
def castle_rank (c : Color) : Nat := match c with | .White => 49 | .Black => 56

/-- Fixture: `g_knight` with the fifty-move counter already at 49. -/
def g_fifty : Game :=
  { g_knight with number_of_moves_without_captures_or_pawn_moves := 49 }

/-- Fixture: White king a1, Black king h8, White pawn e7 about to promote,
fifty-move counter 5, White to move. -/
def g_promo : Game :=
  let b := base_game .White
    [(⟨97, 49⟩, ⟨.King, .White⟩), (⟨104, 56⟩, ⟨.King, .Black⟩),
     (⟨101, 55⟩, ⟨.Pawn, .White⟩)]
  recompute_caches { b with number_of_moves_without_captures_or_pawn_moves := 5 }

/-- The promotion push e7-e8 on `g_promo`. -/
def mv_promo : Move :=
  { piece := ⟨.Pawn, .White⟩, fromPos := ⟨101, 55⟩, toPos := ⟨101, 56⟩,
    captured_piece := none, move_type := .Normal,
    traversed_squares := [⟨101, 55⟩, ⟨101, 56⟩] }

/-- The double pawn push g7-g5 recorded in the `g_ep` history. -/
def mv_g5 : Move :=
  { piece := ⟨.Pawn, .Black⟩, fromPos := ⟨103, 55⟩, toPos := ⟨103, 53⟩,
    captured_piece := none, move_type := .Normal,
    traversed_squares := [⟨103, 55⟩, ⟨103, 53⟩] }

/-- Fixture: White king e1, Black king e8, White pawn f5, Black pawn g5
that just arrived by the double push `mv_g5`; White to move. -/
def g_ep : Game :=
  let b := base_game .White
    [(⟨101, 49⟩, ⟨.King, .White⟩), (⟨101, 56⟩, ⟨.King, .Black⟩),
     (⟨102, 53⟩, ⟨.Pawn, .White⟩), (⟨103, 53⟩, ⟨.Pawn, .Black⟩)]
  recompute_caches { b with history := [mv_g5] }


/-!
Supporting lemmas: board access, congruence of the move generator over
the game fields it reads, projections of the `process_input` update
stages, and repetition-table lookups.
-/

/-- Reading back a just-written board slot. -/
theorem boardGet_set_self (b : Board) (i : Nat) (v : Option Piece) (h : i < b.length) :
    boardGet (boardSet b i v) i = v := by
  unfold boardGet boardSet
  rw [List.getD_eq_getElem?_getD, List.getElem?_set_self h]
  rfl

/-- Reading a board slot other than the one just written. -/
theorem boardGet_set_ne (b : Board) (i j : Nat) (v : Option Piece) (h : i ≠ j) :
    boardGet (boardSet b i v) j = boardGet b j := by
  unfold boardGet boardSet
  rw [List.getD_eq_getElem?_getD, List.getD_eq_getElem?_getD, List.getElem?_set_ne h]

/-- `pos_protected` only reads the cached protected squares. -/
theorem pos_protected_congr {g1 g2 : Game}
    (hp : g1.protected_squares = g2.protected_squares) :
    ∀ p c, pos_protected g1 p c = pos_protected g2 p c := by
  intro p c; unfold pos_protected; rw [hp]

/-- `check` only reads the cached king attackers. -/
theorem check_congr {g1 g2 : Game}
    (hk : g1.pieces_attacking_king = g2.pieces_attacking_king) :
    ∀ c, check g1 c = check g2 c := by
  intro c; unfold check; rw [hk]

/-- `can_short_castle` reads the board, the rights flags and the caches. -/
theorem can_short_castle_congr {g1 g2 : Game}
    (hb : g1.board = g2.board) (hp : g1.protected_squares = g2.protected_squares)
    (hk : g1.pieces_attacking_king = g2.pieces_attacking_king)
    (hs : g1.able_to_short_castle = g2.able_to_short_castle) :
    ∀ c, can_short_castle g1 c = can_short_castle g2 c := by
  intro c
  cases c <;>
    simp only [can_short_castle, hb, hs, check_congr hk, pos_protected_congr hp]

/-- `can_long_castle` reads the board, the rights flags and the caches. -/
theorem can_long_castle_congr {g1 g2 : Game}
    (hb : g1.board = g2.board) (hp : g1.protected_squares = g2.protected_squares)
    (hk : g1.pieces_attacking_king = g2.pieces_attacking_king)
    (hl : g1.able_to_long_castle = g2.able_to_long_castle) :
    ∀ c, can_long_castle g1 c = can_long_castle g2 c := by
  intro c
  cases c <;>
    simp only [can_long_castle, hb, hl, check_congr hk, pos_protected_congr hp]

/-- `possible_king_moves` reads the board, the caches and the rights flags. -/
theorem possible_king_moves_congr {g1 g2 : Game}
    (hb : g1.board = g2.board) (hp : g1.protected_squares = g2.protected_squares)
    (hk : g1.pieces_attacking_king = g2.pieces_attacking_king)
    (hl : g1.able_to_long_castle = g2.able_to_long_castle)
    (hs : g1.able_to_short_castle = g2.able_to_short_castle) :
    ∀ pos piece gp, possible_king_moves g1 pos piece gp = possible_king_moves g2 pos piece gp := by
  intro pos piece gp
  simp only [possible_king_moves, hb, pos_protected_congr hp,
    can_short_castle_congr hb hp hk hs, can_long_castle_congr hb hp hk hl]

/-- `possible_moves_unfiltered` reads the board, history, caches and flags. -/
theorem possible_moves_unfiltered_congr {g1 g2 : Game}
    (hb : g1.board = g2.board) (hh : g1.history = g2.history)
    (hp : g1.protected_squares = g2.protected_squares)
    (hk : g1.pieces_attacking_king = g2.pieces_attacking_king)
    (hl : g1.able_to_long_castle = g2.able_to_long_castle)
    (hs : g1.able_to_short_castle = g2.able_to_short_castle) :
    ∀ pos gp, possible_moves_unfiltered g1 pos gp = possible_moves_unfiltered g2 pos gp := by
  intro pos gp
  simp only [possible_moves_unfiltered, possible_horizontal_vertical_moves,
    possible_diagonal_moves, possible_queen_moves, hb, hh, hk,
    check_congr hk, possible_king_moves_congr hb hp hk hl hs]

/-- `possible_moves_unfiltered` at `get_protected = true` reads only the
board (the check filters, king-safety tests, castling and en passant blocks
are all disabled). -/
theorem possible_moves_unfiltered_true_congr {g1 g2 : Game}
    (hb : g1.board = g2.board) :
    ∀ pos, possible_moves_unfiltered g1 pos true = possible_moves_unfiltered g2 pos true := by
  intro pos
  simp only [possible_moves_unfiltered, possible_horizontal_vertical_moves,
    possible_diagonal_moves, possible_queen_moves, possible_king_moves,
    possbile_pawn_moves, hb, Bool.not_true, Bool.false_and, Bool.true_or,
    Bool.and_self, if_false, Bool.false_eq_true, ite_false, ite_true]

/-- `get_all_protected_squares_nf` reads only the board. -/
theorem get_all_protected_squares_nf_congr {g1 g2 : Game}
    (hb : g1.board = g2.board) :
    get_all_protected_squares_nf g1 = get_all_protected_squares_nf g2 := by
  unfold get_all_protected_squares_nf
  simp only [hb, possible_moves_unfiltered_true_congr hb]

/-- `pieces_attacking_king_nf` reads the board, history, caches and flags. -/
theorem pieces_attacking_king_nf_congr {g1 g2 : Game}
    (hb : g1.board = g2.board) (hh : g1.history = g2.history)
    (hp : g1.protected_squares = g2.protected_squares)
    (hk : g1.pieces_attacking_king = g2.pieces_attacking_king)
    (hl : g1.able_to_long_castle = g2.able_to_long_castle)
    (hs : g1.able_to_short_castle = g2.able_to_short_castle) :
    pieces_attacking_king_nf g1 = pieces_attacking_king_nf g2 := by
  unfold pieces_attacking_king_nf
  simp only [possible_moves_unfiltered_congr hb hh hp hk hl hs]

/-- The attacker recomputation of the pin simulation depends only on the
board, history, stale attacker cache, and rights flags of the start state. -/
theorem simulate_move_pak_congr {g1 g2 : Game}
    (hb : g1.board = g2.board) (hh : g1.history = g2.history)
    (hk : g1.pieces_attacking_king = g2.pieces_attacking_king)
    (hl : g1.able_to_long_castle = g2.able_to_long_castle)
    (hs : g1.able_to_short_castle = g2.able_to_short_castle) (mv : Move) :
    (simulate_move g1 mv).pieces_attacking_king =
      (simulate_move g2 mv).pieces_attacking_king := by
  unfold simulate_move
  dsimp only
  refine pieces_attacking_king_nf_congr ?_ ?_ ?_ ?_ ?_ ?_
  · dsimp only; rw [hb]
  · exact hh
  · refine get_all_protected_squares_nf_congr ?_
    dsimp only; rw [hb]
  · exact hk
  · exact hl
  · exact hs

/-- `piece_is_not_pinned` reads the board, history, the stale attacker
cache, and the rights flags (the protected squares are recomputed from the
board inside the simulation). -/
theorem piece_is_not_pinned_congr {g1 g2 : Game}
    (hb : g1.board = g2.board) (hh : g1.history = g2.history)
    (hk : g1.pieces_attacking_king = g2.pieces_attacking_king)
    (hl : g1.able_to_long_castle = g2.able_to_long_castle)
    (hs : g1.able_to_short_castle = g2.able_to_short_castle) :
    ∀ mv, piece_is_not_pinned g1 mv = piece_is_not_pinned g2 mv := by
  intro mv
  unfold piece_is_not_pinned
  rw [simulate_move_pak_congr hb hh hk hl hs mv]

/-- `possible_moves` congruence over the fields it reads. -/
theorem possible_moves_congr {g1 g2 : Game}
    (hb : g1.board = g2.board) (hh : g1.history = g2.history)
    (hp : g1.protected_squares = g2.protected_squares)
    (hk : g1.pieces_attacking_king = g2.pieces_attacking_king)
    (hl : g1.able_to_long_castle = g2.able_to_long_castle)
    (hs : g1.able_to_short_castle = g2.able_to_short_castle) :
    ∀ pos gp fp, possible_moves g1 pos gp fp = possible_moves g2 pos gp fp := by
  intro pos gp fp
  unfold possible_moves
  simp only [possible_moves_unfiltered_congr hb hh hp hk hl hs,
    piece_is_not_pinned_congr hb hh hk hl hs]

/-- `get_all_possible_moves` congruence over the fields it reads (in
particular it never reads the repetition table or the counters). -/
theorem get_all_possible_moves_congr {g1 g2 : Game}
    (hb : g1.board = g2.board) (hh : g1.history = g2.history)
    (hp : g1.protected_squares = g2.protected_squares)
    (hk : g1.pieces_attacking_king = g2.pieces_attacking_king)
    (hl : g1.able_to_long_castle = g2.able_to_long_castle)
    (hs : g1.able_to_short_castle = g2.able_to_short_castle) :
    get_all_possible_moves g1 = get_all_possible_moves g2 := by
  unfold get_all_possible_moves
  simp only [hb, possible_moves_congr hb hh hp hk hl hs]

/-- The repetition table is dead data for move generation. -/
theorem gapm_reps_invariant (h : Game) (r : List ((Color × Board × List Move) × Nat)) :
    get_all_possible_moves { h with number_of_repeated_board_states := r } =
      get_all_possible_moves h :=
  get_all_possible_moves_congr rfl rfl rfl rfl rfl rfl

-- stage preservation lemmas
theorem urt_turn (g : Game) : (update_repetition_table g).turn = g.turn := by
  unfold update_repetition_table; dsimp only; split <;> rfl
theorem urt_board (g : Game) : (update_repetition_table g).board = g.board := by
  unfold update_repetition_table; dsimp only; split <;> rfl
theorem urt_history (g : Game) : (update_repetition_table g).history = g.history := by
  unfold update_repetition_table; dsimp only; split <;> rfl
theorem urt_counter (g : Game) :
    (update_repetition_table g).number_of_moves_without_captures_or_pawn_moves =
      g.number_of_moves_without_captures_or_pawn_moves := by
  unfold update_repetition_table; dsimp only; split <;> rfl

theorem ph_turn (g : Game) (mv : Move) : (push_history g mv).turn = g.turn := rfl
theorem ph_board (g : Game) (mv : Move) : (push_history g mv).board = g.board := rfl
theorem ph_history (g : Game) (mv : Move) :
    (push_history g mv).history = g.history ++ [mv] := rfl
theorem ph_counter (g : Game) (mv : Move) :
    (push_history g mv).number_of_moves_without_captures_or_pawn_moves =
      g.number_of_moves_without_captures_or_pawn_moves := rfl
theorem ph_reps (g : Game) (mv : Move) :
    (push_history g mv).number_of_repeated_board_states =
      g.number_of_repeated_board_states := rfl

theorem ufc_turn (g : Game) (mv : Move) : (update_fifty_counter g mv).turn = g.turn := by
  unfold update_fifty_counter; split <;> rfl
theorem ufc_board (g : Game) (mv : Move) : (update_fifty_counter g mv).board = g.board := by
  unfold update_fifty_counter; split <;> rfl
theorem ufc_history (g : Game) (mv : Move) :
    (update_fifty_counter g mv).history = g.history := by
  unfold update_fifty_counter; split <;> rfl
theorem ufc_reps (g : Game) (mv : Move) :
    (update_fifty_counter g mv).number_of_repeated_board_states =
      g.number_of_repeated_board_states := by
  unfold update_fifty_counter; split <;> rfl
theorem ufc_counter (g : Game) (mv : Move) :
    (update_fifty_counter g mv).number_of_moves_without_captures_or_pawn_moves =
      (if (mv.captured_piece.isSome || mv.piece.piece_type == .Pawn) then 0
       else (g.number_of_moves_without_captures_or_pawn_moves + 1) % 256) := by
  unfold update_fifty_counter
  cases h : (mv.captured_piece.isSome || mv.piece.piece_type == PieceType.Pawn) <;> simp [h]

theorem ucr_turn (g : Game) (mv : Move) : (update_castling_rights g mv).turn = g.turn := by
  unfold update_castling_rights; dsimp only; (repeat' split) <;> rfl
theorem ucr_board (g : Game) (mv : Move) : (update_castling_rights g mv).board = g.board := by
  unfold update_castling_rights; dsimp only; (repeat' split) <;> rfl
theorem ucr_history (g : Game) (mv : Move) :
    (update_castling_rights g mv).history = g.history := by
  unfold update_castling_rights; dsimp only; (repeat' split) <;> rfl
theorem ucr_counter (g : Game) (mv : Move) :
    (update_castling_rights g mv).number_of_moves_without_captures_or_pawn_moves =
      g.number_of_moves_without_captures_or_pawn_moves := by
  unfold update_castling_rights; dsimp only; (repeat' split) <;> rfl
theorem ucr_reps (g : Game) (mv : Move) :
    (update_castling_rights g mv).number_of_repeated_board_states =
      g.number_of_repeated_board_states := by
  unfold update_castling_rights; dsimp only; (repeat' split) <;> rfl

theorem uc_turn (g : Game) (mv : Move) : (update_captured g mv).turn = g.turn := by
  unfold update_captured; split <;> rfl
theorem uc_board (g : Game) (mv : Move) : (update_captured g mv).board = g.board := by
  unfold update_captured; split <;> rfl
theorem uc_history (g : Game) (mv : Move) : (update_captured g mv).history = g.history := by
  unfold update_captured; split <;> rfl
theorem uc_counter (g : Game) (mv : Move) :
    (update_captured g mv).number_of_moves_without_captures_or_pawn_moves =
      g.number_of_moves_without_captures_or_pawn_moves := by
  unfold update_captured; split <;> rfl
theorem uc_reps (g : Game) (mv : Move) :
    (update_captured g mv).number_of_repeated_board_states =
      g.number_of_repeated_board_states := by
  unfold update_captured; split <;> rfl

theorem rc_turn (g : Game) : (recompute_caches g).turn = g.turn := rfl
theorem rc_board (g : Game) : (recompute_caches g).board = g.board := rfl
theorem rc_history (g : Game) : (recompute_caches g).history = g.history := rfl
theorem rc_counter (g : Game) :
    (recompute_caches g).number_of_moves_without_captures_or_pawn_moves =
      g.number_of_moves_without_captures_or_pawn_moves := rfl
theorem rc_reps (g : Game) :
    (recompute_caches g).number_of_repeated_board_states =
      g.number_of_repeated_board_states := rfl

-- composed apply_valid_move projections
theorem avm_turn (g : Game) (mv : Move) (fromP toP : Position) :
    (apply_valid_move g mv fromP toP).turn = g.turn.invert := by
  unfold apply_valid_move
  rw [urt_turn, ph_turn, ufc_turn, ucr_turn, uc_turn, rc_turn]

theorem avm_board (g : Game) (mv : Move) (fromP toP : Position) :
    (apply_valid_move g mv fromP toP).board = moved_board g.board mv fromP toP := by
  unfold apply_valid_move
  rw [urt_board, ph_board, ufc_board, ucr_board, uc_board, rc_board]

theorem avm_history (g : Game) (mv : Move) (fromP toP : Position) :
    (apply_valid_move g mv fromP toP).history = g.history ++ [mv] := by
  unfold apply_valid_move
  rw [urt_history, ph_history, ufc_history, ucr_history, uc_history, rc_history]

theorem avm_counter (g : Game) (mv : Move) (fromP toP : Position) :
    (apply_valid_move g mv fromP toP).number_of_moves_without_captures_or_pawn_moves =
      (if (mv.captured_piece.isSome || mv.piece.piece_type == .Pawn) then 0
       else (g.number_of_moves_without_captures_or_pawn_moves + 1) % 256) := by
  unfold apply_valid_move
  rw [urt_counter, ph_counter, ufc_counter, ucr_counter, uc_counter, rc_counter]

theorem rep_lookup_map_replace (m : List ((Color × Board × List Move) × Nat))
    (k : Color × Board × List Move) (v : Nat)
    (h : m.any (fun kv => kv.1 == k) = true) :
    rep_lookup (m.map fun kv => if kv.1 == k then (kv.1, v) else kv) k = some v := by
  induction m with
  | nil => simp at h
  | cons a t ih =>
    by_cases ha : (a.1 == k) = true
    · unfold rep_lookup
      rw [List.map_cons, if_pos ha, List.find?_cons_of_pos]
      · rfl
      · exact ha
    · have ht : t.any (fun kv => kv.1 == k) = true := by
        simpa [List.any_cons, ha] using h
      unfold rep_lookup at ih ⊢
      rw [List.map_cons, if_neg ha, List.find?_cons_of_neg]
      · exact ih ht
      · simpa using ha

theorem rep_lookup_append_single (m : List ((Color × Board × List Move) × Nat))
    (k : Color × Board × List Move) (v : Nat)
    (h : m.any (fun kv => kv.1 == k) = false) :
    rep_lookup (m ++ [(k, v)]) k = some v := by
  induction m with
  | nil =>
    unfold rep_lookup
    rw [List.nil_append, List.find?_cons_of_pos]
    · rfl
    · simp
  | cons a t ih =>
    have ha : ((a.1 == k) = false) ∧ t.any (fun kv => kv.1 == k) = false := by
      simpa [List.any_cons] using h
    unfold rep_lookup at ih ⊢
    rw [List.cons_append, List.find?_cons_of_neg]
    · exact ih ha.2
    · simp [ha.1]

theorem rep_lookup_insert_self (m : List ((Color × Board × List Move) × Nat))
    (k : Color × Board × List Move) (v : Nat) :
    rep_lookup (rep_insert m k v) k = some v := by
  unfold rep_insert
  rcases Bool.eq_false_or_eq_true (m.any (fun kv => kv.1 == k)) with h | h
  · rw [if_pos h]; exact rep_lookup_map_replace m k v h
  · rw [if_neg (by simp [h])]; exact rep_lookup_append_single m k v h

theorem gapm_urt (h : Game) :
    get_all_possible_moves (update_repetition_table h) = get_all_possible_moves h := by
  unfold update_repetition_table
  dsimp only
  split <;> exact gapm_reps_invariant _ _

theorem urt_reps (g : Game) :
    rep_lookup (update_repetition_table g).number_of_repeated_board_states
        (g.turn, g.board, get_all_possible_moves g) =
      some (((rep_lookup g.number_of_repeated_board_states
        (g.turn, g.board, get_all_possible_moves g)).getD 0 + 1) % 256) := by
  unfold update_repetition_table
  dsimp only
  split
  · rename_i num_pos heq
    rw [heq]
    simpa using
      rep_lookup_insert_self g.number_of_repeated_board_states _ ((num_pos + 1) % 256)
  · rename_i heq
    rw [heq]
    simpa using rep_lookup_insert_self g.number_of_repeated_board_states _ 1

theorem avm_reps (g : Game) (mv : Move) (fromP toP : Position) :
    rep_lookup (apply_valid_move g mv fromP toP).number_of_repeated_board_states
        ((apply_valid_move g mv fromP toP).turn, (apply_valid_move g mv fromP toP).board,
         get_all_possible_moves (apply_valid_move g mv fromP toP)) =
      some (((rep_lookup g.number_of_repeated_board_states
        ((apply_valid_move g mv fromP toP).turn, (apply_valid_move g mv fromP toP).board,
         get_all_possible_moves (apply_valid_move g mv fromP toP))).getD 0 + 1) % 256) := by
  unfold apply_valid_move
  dsimp only
  rw [urt_turn, urt_board, gapm_urt, urt_reps, ph_reps, ufc_reps, ucr_reps, uc_reps, rc_reps]

/-- Branch analysis of `process_input` on a validated non-promotion move:
the returned state is `apply_valid_move` and the outcome is the terminal
classification evaluated on it. -/
theorem process_input_move_nonpromo (g : Game) (fromP toP : Position) (mv : Move)
    (out : Option UserOutput) (g2 : Game)
    (hmv : get_move_if_valid g fromP toP = some mv)
    (hcond : (mv.piece.piece_type == PieceType.Pawn && mv.move_type == MoveType.Normal
      && (mv.toPos.y == 56 || mv.toPos.y == 49)) = false)
    (hp : process_input g (.Move fromP toP) = some (out, g2)) :
    g2 = apply_valid_move g mv fromP toP
    ∧ out = (if no_possible_moves g2 g2.turn then
        (if check g2 g2.turn then some UserOutput.CheckMate else some UserOutput.StaleMate)
      else if is_a_draw g2 then some UserOutput.Draw else none) := by
  simp only [process_input, hmv, hcond, Bool.false_eq_true, if_false] at hp
  split at hp
  · split at hp
    · rename_i h1 h2
      simp only [Option.some.injEq, Prod.mk.injEq] at hp
      obtain ⟨ho, hg⟩ := hp
      subst hg
      exact ⟨rfl, by rw [← ho]; simp [h1, h2]⟩
    · rename_i h1 h2
      simp only [Option.some.injEq, Prod.mk.injEq] at hp
      obtain ⟨ho, hg⟩ := hp
      subst hg
      exact ⟨rfl, by rw [← ho]; simp [h1, h2]⟩
  · split at hp
    · rename_i h1 h2
      simp only [Option.some.injEq, Prod.mk.injEq] at hp
      obtain ⟨ho, hg⟩ := hp
      subst hg
      exact ⟨rfl, by rw [← ho]; simp [h1, h2]⟩
    · rename_i h1 h2
      simp only [Option.some.injEq, Prod.mk.injEq] at hp
      obtain ⟨ho, hg⟩ := hp
      subst hg
      exact ⟨rfl, by rw [← ho]; simp [h1, h2]⟩

/-- C7 (amended).  On every applied non-promotion move the fifty-move
counter is reset to 0 if the move captures or moves a pawn and is otherwise
incremented by 1 (as a wrapping `u8`), and once it reaches 50 that same
call already returns `Draw` (when the position is not checkmate or
stalemate); a promotion-triggering move, however, returns early and leaves
the counter untouched, and the follow-up `Promotion` input does not update
it either — so a promotion ply never resets the counter even though it is
a pawn move. -/
theorem fifty_move_counter_update (g : Game) :
    (∀ fromP toP mv out g2, get_move_if_valid g fromP toP = some mv →
      process_input g (.Move fromP toP) = some (out, g2) →
      (mv.piece.piece_type == PieceType.Pawn && mv.move_type == MoveType.Normal
        && (mv.toPos.y == 56 || mv.toPos.y == 49)) = false →
      (g2.number_of_moves_without_captures_or_pawn_moves =
        (if (mv.captured_piece.isSome || mv.piece.piece_type == PieceType.Pawn) then 0
         else (g.number_of_moves_without_captures_or_pawn_moves + 1) % 256))
      ∧ (no_possible_moves g2 g2.turn = false →
        50 ≤ g2.number_of_moves_without_captures_or_pawn_moves →
        out = some UserOutput.Draw))
    ∧ (∀ fromP toP mv out g2, get_move_if_valid g fromP toP = some mv →
      process_input g (.Move fromP toP) = some (out, g2) →
      (mv.piece.piece_type == PieceType.Pawn && mv.move_type == MoveType.Normal
        && (mv.toPos.y == 56 || mv.toPos.y == 49)) = true →
      g2.number_of_moves_without_captures_or_pawn_moves =
        g.number_of_moves_without_captures_or_pawn_moves)
    ∧ (∀ piece pos out g2, process_input g (.Promotion piece pos) = some (out, g2) →
      g2.number_of_moves_without_captures_or_pawn_moves =
        g.number_of_moves_without_captures_or_pawn_moves) := by
  refine ⟨?_, ?_, ?_⟩
  · intro fromP toP mv out g2 hmv hp hcond
    obtain ⟨hg2, hout⟩ := process_input_move_nonpromo g fromP toP mv out g2 hmv hcond hp
    subst hg2
    constructor
    · rw [avm_counter]
    · intro hnom hcnt
      have hdraw : is_a_draw (apply_valid_move g mv fromP toP) = true := by
        unfold is_a_draw
        rw [if_pos hcnt]
      rw [hout, if_neg (by simp [hnom]), if_pos hdraw]
  · intro fromP toP mv out g2 hmv hp hcond
    simp only [process_input, hmv, hcond, if_true] at hp
    simp only [Option.some.injEq, Prod.mk.injEq] at hp
    obtain ⟨_, hg⟩ := hp
    subst hg
    rfl
  · intro piece pos out g2 hp
    simp only [process_input] at hp
    split at hp
    · split at hp
      · simp only [Option.some.injEq, Prod.mk.injEq] at hp
        obtain ⟨_, hg⟩ := hp
        subst hg
        rfl
      · simp only [Option.some.injEq, Prod.mk.injEq] at hp
        obtain ⟨_, hg⟩ := hp
        subst hg
        rfl
    · simp only [Option.some.injEq, Prod.mk.injEq] at hp
      obtain ⟨_, hg⟩ := hp
      subst hg
      rfl

/-- C8 (amended).  On every applied non-promotion move the repetition-table
entry for the key (side to move, board, full move set) of the new state is
incremented as a wrapping `u8` (created at 1 if absent), and when any
entry's count is at least 3 that same call returns `Draw` (when the
position is not checkmate or stalemate); a promotion-triggering move,
however, returns early and leaves the repetition table untouched, and the
follow-up `Promotion` input does not update it either — so positions
reached through a promotion ply are not recorded. -/
theorem repetition_table_update (g : Game) :
    (∀ fromP toP mv out g2, get_move_if_valid g fromP toP = some mv →
      process_input g (.Move fromP toP) = some (out, g2) →
      (mv.piece.piece_type == PieceType.Pawn && mv.move_type == MoveType.Normal
        && (mv.toPos.y == 56 || mv.toPos.y == 49)) = false →
      (rep_lookup g2.number_of_repeated_board_states
          (g2.turn, g2.board, get_all_possible_moves g2) =
        some (((rep_lookup g.number_of_repeated_board_states
          (g2.turn, g2.board, get_all_possible_moves g2)).getD 0 + 1) % 256))
      ∧ (no_possible_moves g2 g2.turn = false →
        (g2.number_of_repeated_board_states.any fun kv => 3 ≤ kv.2) = true →
        out = some UserOutput.Draw))
    ∧ (∀ fromP toP mv out g2, get_move_if_valid g fromP toP = some mv →
      process_input g (.Move fromP toP) = some (out, g2) →
      (mv.piece.piece_type == PieceType.Pawn && mv.move_type == MoveType.Normal
        && (mv.toPos.y == 56 || mv.toPos.y == 49)) = true →
      g2.number_of_repeated_board_states = g.number_of_repeated_board_states)
    ∧ (∀ piece pos out g2, process_input g (.Promotion piece pos) = some (out, g2) →
      g2.number_of_repeated_board_states = g.number_of_repeated_board_states) := by
  refine ⟨?_, ?_, ?_⟩
  · intro fromP toP mv out g2 hmv hp hcond
    obtain ⟨hg2, hout⟩ := process_input_move_nonpromo g fromP toP mv out g2 hmv hcond hp
    subst hg2
    constructor
    · exact avm_reps g mv fromP toP
    · intro hnom hany
      have hdraw : is_a_draw (apply_valid_move g mv fromP toP) = true := by
        unfold is_a_draw
        split
        · rfl
        · exact hany
      rw [hout, if_neg (by simp [hnom]), if_pos hdraw]
  · intro fromP toP mv out g2 hmv hp hcond
    simp only [process_input, hmv, hcond, if_true] at hp
    simp only [Option.some.injEq, Prod.mk.injEq] at hp
    obtain ⟨_, hg⟩ := hp
    subst hg
    rfl
  · intro piece pos out g2 hp
    simp only [process_input] at hp
    split at hp
    · split at hp
      · simp only [Option.some.injEq, Prod.mk.injEq] at hp
        obtain ⟨_, hg⟩ := hp
        subst hg
        rfl
      · simp only [Option.some.injEq, Prod.mk.injEq] at hp
        obtain ⟨_, hg⟩ := hp
        subst hg
        rfl
    · simp only [Option.some.injEq, Prod.mk.injEq] at hp
      obtain ⟨_, hg⟩ := hp
      subst hg
      rfl

/-- Writing `none` to a slot always reads back `none` (in range or not). -/
theorem boardGet_set_none (b : Board) (i : Nat) :
    boardGet (boardSet b i none) i = none := by
  unfold boardGet boardSet
  rw [List.getD_eq_getElem?_getD]
  rcases Nat.lt_or_ge i b.length with hlt | hge
  · rw [List.getElem?_set_self hlt]; rfl
  · rw [List.getElem?_eq_none]
    · rfl
    · rw [List.length_set]; exact hge

/-- Forward pawn moves are all `Normal`. -/
theorem pawn_forward_moves_move_type (b : Board) (pos : Position) (piece : Piece)
    (direction : Int) (l : List Int) :
    ∀ mv ∈ pawn_forward_moves b pos piece direction l, mv.move_type = .Normal := by
  induction l with
  | nil => intro mv h; simp [pawn_forward_moves] at h
  | cons y rest ih =>
    intro mv h
    unfold pawn_forward_moves at h
    dsimp only at h
    split at h
    · rcases List.mem_cons.mp h with h | h
      · subst h; rfl
      · exact ih mv h
    · simp at h

/-- Diagonal pawn captures are all `Normal`. -/
theorem pawn_capture_moves_move_type (b : Board) (pos : Position) (piece : Piece)
    (gp : Bool) (direction : Int) :
    ∀ mv ∈ pawn_capture_moves b pos piece gp direction, mv.move_type = .Normal := by
  intro mv h
  unfold pawn_capture_moves at h
  rcases List.mem_flatMap.mp h with ⟨d, _, hm⟩
  dsimp only at hm
  split at hm
  · split at hm
    · rcases List.mem_singleton.mp hm with h; subst h; rfl
    · simp at hm
  · split at hm
    · rcases List.mem_singleton.mp hm with h; subst h; rfl
    · simp at hm
  · simp at hm

/-- The validated move's destination is the requested `to` square, and its
moved piece sits on the requested `from` square. -/
theorem get_move_if_valid_toPos (g : Game) (fromP toP : Position) (mv : Move)
    (h : get_move_if_valid g fromP toP = some mv) : mv.toPos = toP := by
  unfold get_move_if_valid at h
  split at h
  · split at h
    · rename_i heq
      rcases hflt : (possible_moves g fromP false true).filter (fun x => x.toPos == toP)
        with _ | ⟨m, rest⟩ <;> rw [hflt] at h
      · simp at h
      · have hm : m ∈ (possible_moves g fromP false true).filter (fun x => x.toPos == toP) := by
          rw [hflt]; exact List.mem_cons_self m rest
        have := (List.mem_filter.mp hm).2
        simp only [Option.some.injEq] at h
        subst h
        simpa using this
    · simp at h
  · simp at h

/-- Saturating add of zero is the identity on `u8`-ranged values. -/
theorem checked_add_zero (q : Nat) (hq : q ≤ 255) : checked_add q 0 = q := by
  simp only [checked_add, Nat.min_def]
  split_ifs <;> omega

/-- `checked_add` never exceeds 255. -/
theorem checked_add_le (a : Nat) (b : Int) : checked_add a b ≤ 255 := by
  simp only [checked_add, Nat.min_def]
  split_ifs <;> omega

/-- Stepping a rank by `±1` and back cancels, for on-board-ranged starts. -/
theorem position_add_cancel (pos : Position) (a : Int)
    (hy1 : 1 ≤ pos.y) (hy2 : pos.y ≤ 254)
    (d : Int) (hd : d = 1 ∨ d = -1) :
    (pos.add (a, d)).add (0, -d) = pos.add (a, 0) := by
  have hxeq : checked_add (checked_add pos.x a) 0 = checked_add pos.x a :=
    checked_add_zero _ (checked_add_le _ _)
  rcases hd with hd | hd <;> subst hd <;>
    (unfold Position.add
     refine congrArg₂ Position.mk hxeq ?_
     simp only [checked_add, Nat.min_def]
     split_ifs <;> omega)

/-- Bounds extracted from a succeeding `try_as_index`. -/
theorem try_as_index_bounds (pos : Position) (h : pos.try_as_index.isSome = true) :
    97 ≤ pos.x ∧ pos.x ≤ 104 ∧ 49 ≤ pos.y ∧ pos.y ≤ 56 := by
  unfold Position.try_as_index at h
  split at h
  · simp at h
  · rename_i hc
    simp only [Bool.or_eq_true, decide_eq_true_eq, not_or] at hc
    omega

/-- En passant moves are the only `Enpassant`-tagged pawn moves. -/
theorem pawn_enpassant_moves_move_type (b : Board) (hist : List Move) (pos : Position)
    (piece : Piece) (direction : Int) :
    ∀ mv ∈ pawn_enpassant_moves b hist pos piece direction,
      mv.move_type = MoveType.Enpassant := by
  intro mv h
  unfold pawn_enpassant_moves at h
  split at h
  · split at h
    · rcases List.mem_singleton.mp h with h; subst h; rfl
    · simp at h
  · simp at h

/-- C5.  A pawn's generated move list contains an en passant move exactly
when the last move of the history was a two-square pawn advance by the
opponent landing directly beside it; that move's destination is diagonally
behind the advanced pawn (its square minus one forward step) and its
captured piece is read from the advanced pawn's square (hence is that pawn
itself); and applying a validated en passant move through `process_input`
leaves both the advanced pawn's square and the capturing pawn's origin
square empty. -/
theorem enpassant_availability_and_effect (g : Game) (pos : Position) (piece : Piece)
    (hpos : pos.try_as_index.isSome = true)
    (hlast : (g.history.getLast?).all (fun lm => lm.piece.color == piece.color.invert) = true) :
    ((∃ mv ∈ possbile_pawn_moves g.board g.history pos piece false,
        mv.move_type = MoveType.Enpassant) ↔
      (∃ lm, g.history.getLast? = some lm ∧ lm.piece.piece_type = PieceType.Pawn
        ∧ lm.piece.color = piece.color.invert
        ∧ ((lm.fromPos.y : Int) - (lm.toPos.y : Int)).natAbs = 2
        ∧ (lm.toPos = pos.add (1, 0) ∨ lm.toPos = pos.add (-1, 0))))
    ∧ (∀ mv ∈ possbile_pawn_moves g.board g.history pos piece false,
        mv.move_type = MoveType.Enpassant →
        ∃ lm, g.history.getLast? = some lm
          ∧ mv.toPos.add (0, -(if piece.color == Color.White then (1 : Int) else -1)) = lm.toPos
          ∧ mv.captured_piece = boardGet g.board lm.toPos.as_index
          ∧ (boardGet g.board lm.toPos.as_index = some lm.piece →
              mv.captured_piece = some lm.piece))
    ∧ (∀ fromP toP mv out g2, get_move_if_valid g fromP toP = some mv →
        mv.move_type = MoveType.Enpassant →
        process_input g (.Move fromP toP) = some (out, g2) →
        boardGet g2.board ((mv.toPos.add (0,
          -(if mv.piece.color == Color.White then (1 : Int) else -1))).as_index) = none
        ∧ (fromP.as_index ≠ mv.toPos.as_index →
          fromP.as_index ≠ (mv.toPos.add (0,
            -(if mv.piece.color == Color.White then (1 : Int) else -1))).as_index →
          boardGet g2.board fromP.as_index = none)) := by
  obtain ⟨hx1, hx2, hy1, hy2⟩ := try_as_index_bounds pos hpos
  have hsplit : possbile_pawn_moves g.board g.history pos piece false =
      pawn_forward_moves g.board pos piece (if piece.color == Color.White then 1 else -1)
        (if piece.color == Color.White then (if pos.y == 50 then [1, 2] else [1])
         else (if pos.y == 55 then [1, 2] else [1]))
      ++ pawn_capture_moves g.board pos piece false
          (if piece.color == Color.White then 1 else -1)
      ++ pawn_enpassant_moves g.board g.history pos piece
          (if piece.color == Color.White then 1 else -1) := rfl
  have hdir : (if piece.color == Color.White then (1 : Int) else -1) = 1
      ∨ (if piece.color == Color.White then (1 : Int) else -1) = -1 := by
    split <;> [exact Or.inl rfl; exact Or.inr rfl]
  refine ⟨?_, ?_, ?_⟩
  · constructor
    · rintro ⟨mv, hmem, hmt⟩
      rw [hsplit] at hmem
      rcases List.mem_append.mp hmem with hmem | hmem
      rcases List.mem_append.mp hmem with hmem | hmem
      · rw [pawn_forward_moves_move_type _ _ _ _ _ mv hmem] at hmt; cases hmt
      · rw [pawn_capture_moves_move_type _ _ _ _ _ mv hmem] at hmt; cases hmt
      · unfold pawn_enpassant_moves at hmem
        split at hmem
        case _ lm hleq =>
          split at hmem
          case isTrue hcond =>
            obtain ⟨hab, hc⟩ := (Bool.and_eq_true _ _) ▸ hcond
            obtain ⟨ha, hb⟩ := (Bool.and_eq_true _ _) ▸ hab
            have hcol : lm.piece.color = piece.color.invert := by
              rw [hleq] at hlast
              simpa using hlast
            refine ⟨lm, hleq, beq_iff_eq.mp ha, hcol, beq_iff_eq.mp hb, ?_⟩
            rcases (Bool.or_eq_true _ _) ▸ hc with h | h
            · exact Or.inl (beq_iff_eq.mp h)
            · exact Or.inr (beq_iff_eq.mp h)
          case isFalse => simp at hmem
        case _ => simp at hmem
    · rintro ⟨lm, hleq, hlp, hcol, habs, hside⟩
      have hne : pawn_enpassant_moves g.board g.history pos piece
          (if piece.color == Color.White then 1 else -1) ≠ [] := by
        unfold pawn_enpassant_moves
        rw [hleq]
        dsimp only
        have h1 : (lm.piece.piece_type == PieceType.Pawn) = true := by simp [hlp]
        have h2 : ((((lm.fromPos.y : Int)) - (lm.toPos.y : Int)).natAbs == 2) = true := by
          simp [habs]
        have h3 : ((lm.toPos == pos.add (1, 0)) || (lm.toPos == pos.add (-1, 0))) = true := by
          rcases hside with h | h
          · exact (Bool.or_eq_true _ _).mpr (Or.inl (beq_iff_eq.mpr h))
          · exact (Bool.or_eq_true _ _).mpr (Or.inr (beq_iff_eq.mpr h))
        have hcond : (lm.piece.piece_type == PieceType.Pawn
            && ((lm.fromPos.y : Int) - (lm.toPos.y : Int)).natAbs == 2
            && (lm.toPos == pos.add (1, 0) || lm.toPos == pos.add (-1, 0))) = true := by
          rw [h1, h2, h3]
          rfl
        rw [if_pos hcond]
        simp
      obtain ⟨mv, hmem⟩ := List.exists_mem_of_ne_nil _ hne
      refine ⟨mv, ?_, pawn_enpassant_moves_move_type _ _ _ _ _ mv hmem⟩
      rw [hsplit]
      exact List.mem_append.mpr (Or.inr hmem)
  · intro mv hmem hmt
    rw [hsplit] at hmem
    rcases List.mem_append.mp hmem with hmem | hmem
    rcases List.mem_append.mp hmem with hmem | hmem
    · rw [pawn_forward_moves_move_type _ _ _ _ _ mv hmem] at hmt; cases hmt
    · rw [pawn_capture_moves_move_type _ _ _ _ _ mv hmem] at hmt; cases hmt
    · unfold pawn_enpassant_moves at hmem
      split at hmem
      case _ lm hleq =>
        split at hmem
        case isTrue hcond =>
          rcases List.mem_singleton.mp hmem with rfl
          obtain ⟨hab, hc⟩ := (Bool.and_eq_true _ _) ▸ hcond
          refine ⟨lm, hleq, ?_⟩
          have hkey : (if (lm.toPos == pos.add (1, 0)) = true then
                pos.add (1, if piece.color == Color.White then (1 : Int) else -1)
              else pos.add (-1, if piece.color == Color.White then (1 : Int) else -1)).add
                (0, -(if piece.color == Color.White then (1 : Int) else -1)) = lm.toPos := by
            split
            case isTrue hin =>
              rw [position_add_cancel pos 1 (by omega) (by omega) _ hdir]
              exact (beq_iff_eq.mp hin).symm
            case isFalse hin =>
              rw [position_add_cancel pos (-1) (by omega) (by omega) _ hdir]
              rcases (Bool.or_eq_true _ _) ▸ hc with h | h
              · exact absurd h hin
              · exact (beq_iff_eq.mp h).symm
          refine ⟨hkey, ?_, ?_⟩
          · show boardGet g.board ((Position.add _ (0, _)).as_index) = _
            rw [hkey]
          · intro hb
            show boardGet g.board ((Position.add _ (0, _)).as_index) = _
            rw [hkey, hb]
        case isFalse => simp at hmem
      case _ => simp at hmem
  · intro fromP toP mv out g2 hmv hmt hp
    have hcond : (mv.piece.piece_type == PieceType.Pawn && mv.move_type == MoveType.Normal
        && (mv.toPos.y == 56 || mv.toPos.y == 49)) = false := by
      simp [hmt]
    obtain ⟨hg2, _⟩ := process_input_move_nonpromo g fromP toP mv out g2 hmv hcond hp
    subst hg2
    have hto := get_move_if_valid_toPos g fromP toP mv hmv
    rw [avm_board]
    have hee : (MoveType.Enpassant == MoveType.Enpassant) = true := rfl
    have hlc : (MoveType.Enpassant == MoveType.LongCastle) = false := rfl
    have hsc : (MoveType.Enpassant == MoveType.ShortCastle) = false := rfl
    simp only [moved_board, hmt, hee, hlc, hsc, Bool.false_eq_true, if_false, if_true,
      Bool.true_eq_false, ite_true, ite_false]
    constructor
    · exact boardGet_set_none _ _
    · intro hne1 hne2
      rw [← hto]
      rw [boardGet_set_ne, boardGet_set_ne, boardGet_set_none]
      · exact Ne.symm hne1
      · exact Ne.symm hne2

/-- C3.  The fresh game has exactly 20 valid moves for White: 16 pawn moves
and 4 knight moves. -/
theorem new_game_has_twenty_moves :
    (get_all_currently_valid_moves Game.new).length = 20
    ∧ ((get_all_currently_valid_moves Game.new).filter
        (fun m => m.piece.piece_type == .Pawn)).length = 16
    ∧ ((get_all_currently_valid_moves Game.new).filter
        (fun m => m.piece.piece_type == .Knight)).length = 4 := by
  decide

/-- C9 counterexample: the claim says a `Resign` request returns an outcome,
but `process_input` hits `unreachable!()` there (modelled as `none`: the
process aborts). -/
theorem resign_aborts_cex : process_input Game.new .Resign = none := rfl

/-- C9 (amended).  `process_input` is only defined for `Move` and
`Promotion` inputs; a `Resign` or `Draw` (draw offer) input reaches the
`unreachable!()` arm and aborts instead of returning an outcome (front ends
handle resignations and draw offers without calling the engine). -/
theorem resign_draw_unsupported (g : Game) :
    process_input g .Resign = none ∧ process_input g .Draw = none :=
  ⟨rfl, rfl⟩

/-- C2.  A move request naming a square with no piece (or off the board), a
piece of the color not on turn, or a destination that is not among that
piece's valid moves, yields `InvalidMove` and returns the game state
entirely unchanged. -/
theorem invalid_move_request_rejected (g : Game) (fromP toP : Position)
    (h : fromP.try_as_index = none
      ∨ (∃ i, fromP.try_as_index = some i ∧ boardGet g.board i = none)
      ∨ (∃ i p, fromP.try_as_index = some i ∧ boardGet g.board i = some p ∧ p.color ≠ g.turn)
      ∨ toP ∉ (possible_moves g fromP false true).map (fun m => m.toPos)) :
    process_input g (.Move fromP toP) = some (some .InvalidMove, g) := by
  have hnone : get_move_if_valid g fromP toP = none := by
    rcases h with h1 | ⟨i, h2a, h2b⟩ | ⟨i, p, h3a, h3b, h3c⟩ | h4
    · have hobs : obstacles_in_one_move g.board fromP = some .OutOfBoundary := by
        unfold obstacles_in_one_move; rw [h1]
      unfold get_move_if_valid; rw [hobs]
    · have hobs : obstacles_in_one_move g.board fromP = none := by
        unfold obstacles_in_one_move; rw [h2a]; simp [h2b]
      unfold get_move_if_valid; rw [hobs]
    · have hobs : obstacles_in_one_move g.board fromP = some (.Piece p.color) := by
        unfold obstacles_in_one_move; rw [h3a]; simp [h3b]
      unfold get_move_if_valid; rw [hobs]
      have hne : (g.turn == p.color) = false := by
        simp only [beq_eq_false_iff_ne]; exact fun he => h3c he.symm
      simp [hne]
    · have hfil : (possible_moves g fromP false true).filter (fun x => x.toPos == toP) = [] := by
        rw [List.filter_eq_nil_iff]
        intro a ha hcontra
        exact h4 (List.mem_map.mpr ⟨a, ha, by simpa using hcontra⟩)
      unfold get_move_if_valid
      cases hobs : obstacles_in_one_move g.board fromP with
      | none => rfl
      | some ob =>
        cases ob with
        | OutOfBoundary => rfl
        | Piece pc =>
          by_cases ht : (g.turn == pc) = true
          · simp only [ht, if_true, hfil]
          · simp only [ht]
            simp
  simp only [process_input, hnone]

/-- Witness for C2: asking to move from the empty square e5 in the fresh
game is rejected with `InvalidMove` and the state is returned unchanged. -/
theorem invalid_move_request_rejected_witness :
    boardGet Game.new.board 36 = none
    ∧ process_input Game.new (.Move ⟨101, 53⟩ ⟨101, 54⟩) =
        some (some .InvalidMove, Game.new) :=
  ⟨by decide, invalid_move_request_rejected Game.new ⟨101, 53⟩ ⟨101, 54⟩
    (Or.inr (Or.inl ⟨36, by decide, by decide⟩))⟩


/-- C4.  `can_short_castle` (resp. `can_long_castle`) holds exactly when the
color is not in check, the corresponding rights flag is still set, every
square between king and rook is empty, and none of the squares the king
passes through or lands on (f/g files for short, c/d files for long — the
rook's b-file square is not tested) is attacked by the opponent; as an
equivalence, falsifying any single conjunct makes the castle illegal. -/
theorem castling_iff_conditions (g : Game) (c : Color) :
    (can_short_castle g c = true ↔
      (check g c = false ∧ colorIdx g.able_to_short_castle c = true
        ∧ (∀ p ∈ [(⟨102, castle_rank c⟩ : Position), ⟨103, castle_rank c⟩],
            boardGet g.board p.as_index = none)
        ∧ (∀ p ∈ [(⟨102, castle_rank c⟩ : Position), ⟨103, castle_rank c⟩],
            pos_protected g p c.invert = false)))
    ∧ (can_long_castle g c = true ↔
      (check g c = false ∧ colorIdx g.able_to_long_castle c = true
        ∧ (∀ p ∈ [(⟨98, castle_rank c⟩ : Position), ⟨99, castle_rank c⟩, ⟨100, castle_rank c⟩],
            boardGet g.board p.as_index = none)
        ∧ (∀ p ∈ [(⟨99, castle_rank c⟩ : Position), ⟨100, castle_rank c⟩],
            pos_protected g p c.invert = false))) := by
  cases c <;>
    simp [can_short_castle, can_long_castle, castle_rank, Bool.and_eq_true,
      Option.isNone_iff_eq_none, Bool.not_eq_true', List.forall_mem_cons, and_assoc]

/-- C6.  A validated normal pawn move onto the back rank returns the
`Promotion` outcome without flipping the turn (the pawn is placed, the move
recorded); the subsequent `Promotion` input flips the turn, places the
chosen piece on the square, and re-evaluates checkmate/stalemate for the
new side to move. -/
theorem promotion_two_step (g : Game) :
    (∀ fromP toP mv, get_move_if_valid g fromP toP = some mv →
      mv.piece.piece_type = .Pawn → mv.move_type = .Normal →
      ((mv.piece.color = .White ∧ mv.toPos.y = 56) ∨ (mv.piece.color = .Black ∧ mv.toPos.y = 49)) →
      ∃ g2, process_input g (.Move fromP toP) = some (some (.Promotion mv.toPos), g2)
        ∧ g2.turn = g.turn ∧ g2.history = g.history ++ [mv]
        ∧ g2.board = boardSet (boardSet g.board fromP.as_index none) toP.as_index (some mv.piece))
    ∧ (∀ piece pos out g2, process_input g (.Promotion piece pos) = some (out, g2) →
      g2.turn = g.turn.invert
      ∧ (pos.as_index < g.board.length → boardGet g2.board pos.as_index = some piece)
      ∧ out = (if no_possible_moves g2 g2.turn then
          (if check g2 g2.turn then some UserOutput.CheckMate else some UserOutput.StaleMate)
          else none)) := by
  constructor
  · intro fromP toP mv hmv hpt hmt h4
    have hcond : (mv.piece.piece_type == PieceType.Pawn && mv.move_type == MoveType.Normal
        && (mv.toPos.y == 56 || mv.toPos.y == 49)) = true := by
      rcases h4 with ⟨_, hy⟩ | ⟨_, hy⟩ <;> simp [hpt, hmt, hy]
    simp only [process_input, hmv, hcond, if_true]
    exact ⟨_, rfl, rfl, rfl, rfl⟩
  · intro piece pos out g2 hp
    simp only [process_input] at hp
    split at hp
    · split at hp
      · rename_i h1 h2
        simp only [Option.some.injEq, Prod.mk.injEq] at hp
        obtain ⟨ho, hg⟩ := hp
        subst hg
        exact ⟨rfl, fun hlen => boardGet_set_self _ _ _ hlen, by rw [← ho]; simp [h1, h2]⟩
      · rename_i h1 h2
        simp only [Option.some.injEq, Prod.mk.injEq] at hp
        obtain ⟨ho, hg⟩ := hp
        subst hg
        exact ⟨rfl, fun hlen => boardGet_set_self _ _ _ hlen, by rw [← ho]; simp [h1, h2]⟩
    · rename_i h1
      simp only [Option.some.injEq, Prod.mk.injEq] at hp
      obtain ⟨ho, hg⟩ := hp
      subst hg
      exact ⟨rfl, fun hlen => boardGet_set_self _ _ _ hlen, by rw [← ho]; simp [h1]⟩

/-- An obstacle report of a piece implies the square was on the board. -/
theorem obstacles_piece_isSome (b : Board) (p : Position) (c : Color)
    (h : obstacles_in_one_move b p = some (.Piece c)) :
    p.try_as_index.isSome = true := by
  unfold obstacles_in_one_move at h
  split at h
  · cases h
  · rename_i i hi
    rw [hi]
    rfl

/-- An empty-square report implies the square was on the board. -/
theorem obstacles_none_isSome (b : Board) (p : Position)
    (h : obstacles_in_one_move b p = none) :
    p.try_as_index.isSome = true := by
  unfold obstacles_in_one_move at h
  split at h
  · cases h
  · rename_i i hi
    rw [hi]
    rfl

/-- Slider destinations are always on the board. -/
theorem gmiod_toPos_on_board (b : Board) (pos : Position) (piece : Piece) (gp : Bool) :
    ∀ path traversed mv, mv ∈ get_moves_in_one_direction b pos piece gp path traversed →
      mv.toPos.try_as_index.isSome = true := by
  intro path
  induction path with
  | nil => intro traversed mv h; simp [get_moves_in_one_direction] at h
  | cons d rest ih =>
    intro traversed mv h
    rcases d with ⟨dx, dy⟩
    unfold get_moves_in_one_direction at h
    dsimp only at h
    split at h
    · split at h
      · rcases List.mem_singleton.mp h with rfl
        rename_i hobs _
        exact obstacles_piece_isSome _ _ _ hobs
      · simp at h
    · simp at h
    · rcases List.mem_cons.mp h with rfl | h
      · rename_i hobs
        exact obstacles_none_isSome _ _ hobs
      · exact ih _ mv h

/-- Knight destinations are always on the board. -/
theorem knight_toPos_on_board (b : Board) (pos : Position) (piece : Piece) (gp : Bool) :
    ∀ mv ∈ possible_knight_moves b pos piece gp, mv.toPos.try_as_index.isSome = true := by
  intro mv h
  unfold possible_knight_moves at h
  rcases List.mem_flatMap.mp h with ⟨d, _, hm⟩
  dsimp only at hm
  split at hm
  · rcases List.mem_singleton.mp hm with rfl
    rename_i hobs
    exact obstacles_none_isSome _ _ hobs
  · split at hm
    · rcases List.mem_singleton.mp hm with rfl
      rename_i hobs _
      exact obstacles_piece_isSome _ _ _ hobs
    · simp at hm
  · simp at hm

/-- Forward pawn destinations are always on the board. -/
theorem pawn_forward_toPos_on_board (b : Board) (pos : Position) (piece : Piece)
    (direction : Int) :
    ∀ l mv, mv ∈ pawn_forward_moves b pos piece direction l →
      mv.toPos.try_as_index.isSome = true := by
  intro l
  induction l with
  | nil => intro mv h; simp [pawn_forward_moves] at h
  | cons y rest ih =>
    intro mv h
    unfold pawn_forward_moves at h
    dsimp only at h
    split at h
    · rcases List.mem_cons.mp h with rfl | h
      · rename_i hobs
        exact obstacles_none_isSome _ _ hobs
      · exact ih mv h
    · simp at h

/-- Diagonal pawn capture destinations are always on the board. -/
theorem pawn_capture_toPos_on_board (b : Board) (pos : Position) (piece : Piece)
    (gp : Bool) (direction : Int) :
    ∀ mv ∈ pawn_capture_moves b pos piece gp direction,
      mv.toPos.try_as_index.isSome = true := by
  intro mv h
  unfold pawn_capture_moves at h
  rcases List.mem_flatMap.mp h with ⟨d, _, hm⟩
  dsimp only at hm
  split at hm
  · split at hm
    · rcases List.mem_singleton.mp hm with rfl
      rename_i hobs _
      exact obstacles_piece_isSome _ _ _ hobs
    · simp at hm
  · split at hm
    · rcases List.mem_singleton.mp hm with rfl
      rename_i hobs _
      exact obstacles_none_isSome _ _ hobs
    · simp at hm
  · simp at hm



/-- On-board bounds give a succeeding `try_as_index`. -/
theorem try_isSome_of_bounds (p : Position) (hx1 : 97 ≤ p.x) (hx2 : p.x ≤ 104)
    (hy1 : 49 ≤ p.y) (hy2 : p.y ≤ 56) : p.try_as_index.isSome = true := by
  unfold Position.try_as_index
  rw [if_neg]
  · rfl
  · simp only [Bool.or_eq_true, decide_eq_true_eq, not_or]
    omega

/-- On-board squares index below 64. -/
theorem as_index_lt_64 (p : Position) (h : p.try_as_index.isSome = true) :
    p.as_index < 64 := by
  obtain ⟨hx1, hx2, hy1, hy2⟩ := try_as_index_bounds p h
  unfold Position.as_index
  omega

/-- A legal long castle implies the long-castling rights flag. -/
theorem can_long_castle_flag (g : Game) (c : Color) (h : can_long_castle g c = true) :
    colorIdx g.able_to_long_castle c = true := by
  cases c <;>
    (unfold can_long_castle at h
     simp only [Bool.and_eq_true] at h
     exact h.1.1.1.1.1.2)

/-- A legal short castle implies the short-castling rights flag. -/
theorem can_short_castle_flag (g : Game) (c : Color) (h : can_short_castle g c = true) :
    colorIdx g.able_to_short_castle c = true := by
  cases c <;>
    (unfold can_short_castle at h
     simp only [Bool.and_eq_true] at h
     exact h.1.1.1.1.2)

/-- Stepping a bounded coordinate up by one. -/
theorem checked_add_one (a : Nat) (h : a ≤ 254) : checked_add a 1 = a + 1 := by
  simp only [checked_add, Nat.min_def]
  split_ifs <;> omega

/-- Stepping a bounded coordinate down by one. -/
theorem checked_add_neg_one (a : Nat) (h : a ≤ 255) : checked_add a (-1) = a - 1 := by
  simp only [checked_add, Nat.min_def]
  split_ifs <;> omega


/-- An en passant destination sharing its file with a recorded on-board
square, and with an in-range rank, is on the board. -/
theorem ep_dest_on_board (pos lmto : Position) (a d : Int)
    (hx : lmto.x = checked_add pos.x a)
    (hlx1 : 97 ≤ lmto.x) (hlx2 : lmto.x ≤ 104)
    (hy1 : 49 ≤ checked_add pos.y d) (hy2 : checked_add pos.y d ≤ 56) :
    (pos.add (a, d)).try_as_index.isSome = true := by
  refine try_isSome_of_bounds _ ?_ ?_ ?_ ?_
  · show 97 ≤ checked_add pos.x a
    rw [← hx]; exact hlx1
  · show checked_add pos.x a ≤ 104
    rw [← hx]; exact hlx2
  · exact hy1
  · exact hy2

/-- En passant destinations are on the board, for a pawn standing on the
board, provided every historic two-square pawn advance landed on rank 4 or
rank 5 (the only two-square pawn moves the generator produces) and every
historic destination was on the board. -/
theorem pawn_enpassant_toPos_on_board (board : Board) (history : List Move)
    (pos : Position) (piece : Piece) (direction : Int)
    (hd : direction = if piece.color == Color.White then 1 else -1)
    (hpos : pos.try_as_index.isSome = true)
    (hdp : ∀ lm ∈ history, lm.piece.piece_type = PieceType.Pawn →
      ((lm.fromPos.y : Int) - (lm.toPos.y : Int)).natAbs = 2 →
      (lm.toPos.y = 52 ∨ lm.toPos.y = 53))
    (hh : ∀ lm ∈ history, lm.toPos.try_as_index.isSome = true) :
    ∀ mv ∈ pawn_enpassant_moves board history pos piece direction,
      mv.toPos.try_as_index.isSome = true := by
  intro mv h
  obtain ⟨hx1, hx2, hy1, hy2⟩ := try_as_index_bounds pos hpos
  unfold pawn_enpassant_moves at h
  split at h
  · rename_i lm hlast
    split at h
    · rename_i hc
      dsimp only at h
      rcases List.mem_singleton.mp h with rfl
      dsimp only
      have hmem : lm ∈ history := List.mem_of_mem_getLast? hlast
      obtain ⟨hlx1, hlx2, hly1, hly2⟩ := try_as_index_bounds lm.toPos (hh lm hmem)
      simp only [Bool.and_eq_true, Bool.or_eq_true, beq_iff_eq] at hc
      have hty : lm.toPos.y = 52 ∨ lm.toPos.y = 53 := hdp lm hmem hc.1.1 hc.1.2
      have htposy : lm.toPos.y = pos.y := by
        rcases hc.2 with h2 | h2 <;> rw [h2] <;> exact checked_add_zero pos.y (by omega)
      have hpy : 52 ≤ pos.y ∧ pos.y ≤ 53 := by
        rcases hty with h2 | h2 <;> omega
      cases hdc : piece.color with
      | White =>
        have hdir : direction = 1 := by rw [hd, hdc]; rfl
        subst hdir
        have hca : checked_add pos.y 1 = pos.y + 1 := checked_add_one _ (by omega)
        split
        · rename_i heq
          have hlmx : lm.toPos.x = checked_add pos.x 1 := by
            rw [eq_of_beq heq]; rfl
          exact ep_dest_on_board pos lm.toPos 1 1 hlmx hlx1 hlx2
            (by omega) (by omega)
        · rename_i hne
          have heq2 : lm.toPos = pos.add (-1, 0) := by
            rcases hc.2 with h2 | h2
            · exact absurd (beq_iff_eq.mpr h2) hne
            · exact h2
          have hlmx : lm.toPos.x = checked_add pos.x (-1) := by
            rw [heq2]; rfl
          exact ep_dest_on_board pos lm.toPos (-1) 1 hlmx hlx1 hlx2
            (by omega) (by omega)
      | Black =>
        have hdir : direction = -1 := by rw [hd, hdc]; rfl
        subst hdir
        have hca : checked_add pos.y (-1) = pos.y - 1 := checked_add_neg_one _ (by omega)
        split
        · rename_i heq
          have hlmx : lm.toPos.x = checked_add pos.x 1 := by
            rw [eq_of_beq heq]; rfl
          exact ep_dest_on_board pos lm.toPos 1 (-1) hlmx hlx1 hlx2
            (by omega) (by omega)
        · rename_i hne
          have heq2 : lm.toPos = pos.add (-1, 0) := by
            rcases hc.2 with h2 | h2
            · exact absurd (beq_iff_eq.mpr h2) hne
            · exact h2
          have hlmx : lm.toPos.x = checked_add pos.x (-1) := by
            rw [heq2]; rfl
          exact ep_dest_on_board pos lm.toPos (-1) (-1) hlmx hlx1 hlx2
            (by omega) (by omega)
    · simp at h
  · simp at h


/-- King destinations are on the board, for a king standing on the board,
provided each color's king still sits on its home square whenever that
color retains a castling right. -/
theorem king_toPos_on_board (g : Game) (pos : Position) (piece : Piece) (gp : Bool)
    (hpos : pos.try_as_index.isSome = true)
    (hpiece : boardGet g.board pos.as_index = some piece)
    (hpt : piece.piece_type = PieceType.King)
    (hkw : ∀ i, i < 64 → boardGet g.board i = some ⟨PieceType.King, Color.White⟩ →
      (colorIdx g.able_to_long_castle Color.White = true ∨
        colorIdx g.able_to_short_castle Color.White = true) → i = 4)
    (hkb : ∀ i, i < 64 → boardGet g.board i = some ⟨PieceType.King, Color.Black⟩ →
      (colorIdx g.able_to_long_castle Color.Black = true ∨
        colorIdx g.able_to_short_castle Color.Black = true) → i = 60) :
    ∀ mv ∈ possible_king_moves g pos piece gp, mv.toPos.try_as_index.isSome = true := by
  intro mv h
  unfold possible_king_moves at h
  have hidx : pos.as_index < 64 := as_index_lt_64 pos hpos
  rcases piece with ⟨pt, pc⟩
  dsimp only at hpt
  subst hpt
  rcases List.mem_append.mp h with h | h
  · rcases List.mem_append.mp h with h | h
    · rcases List.mem_flatMap.mp h with ⟨d, hd, hm⟩
      dsimp only at hm
      split at hm
      · rename_i hobs
        split at hm
        · rcases List.mem_singleton.mp hm with rfl
          exact obstacles_none_isSome _ _ hobs
        · simp at hm
      · rename_i c hobs
        split at hm
        · rcases List.mem_singleton.mp hm with rfl
          exact obstacles_piece_isSome _ _ _ hobs
        · simp at hm
      · simp at hm
    · split at h
      · rename_i hc
        rcases List.mem_singleton.mp h with rfl
        have hflag := can_long_castle_flag g pc ((Bool.and_eq_true _ _ ▸ hc).2)
        cases pc with
        | White =>
          have h4 : pos.as_index = 4 := hkw pos.as_index hidx hpiece (Or.inl hflag)
          obtain ⟨hx1, hx2, hy1, hy2⟩ := try_as_index_bounds pos hpos
          have hxy : pos.x = 101 ∧ pos.y = 49 := by
            unfold Position.as_index at h4; omega
          have hp : pos = ⟨101, 49⟩ := by
            rcases pos with ⟨px, py⟩
            dsimp only at hxy
            rw [hxy.1, hxy.2]
          rw [hp]
          dsimp only
          decide
        | Black =>
          have h60 : pos.as_index = 60 := hkb pos.as_index hidx hpiece (Or.inl hflag)
          obtain ⟨hx1, hx2, hy1, hy2⟩ := try_as_index_bounds pos hpos
          have hxy : pos.x = 101 ∧ pos.y = 56 := by
            unfold Position.as_index at h60; omega
          have hp : pos = ⟨101, 56⟩ := by
            rcases pos with ⟨px, py⟩
            dsimp only at hxy
            rw [hxy.1, hxy.2]
          rw [hp]
          dsimp only
          decide
      · simp at h
  · split at h
    · rename_i hc
      rcases List.mem_singleton.mp h with rfl
      have hflag := can_short_castle_flag g pc ((Bool.and_eq_true _ _ ▸ hc).2)
      cases pc with
      | White =>
        have h4 : pos.as_index = 4 := hkw pos.as_index hidx hpiece (Or.inr hflag)
        obtain ⟨hx1, hx2, hy1, hy2⟩ := try_as_index_bounds pos hpos
        have hxy : pos.x = 101 ∧ pos.y = 49 := by
          unfold Position.as_index at h4; omega
        have hp : pos = ⟨101, 49⟩ := by
          rcases pos with ⟨px, py⟩
          dsimp only at hxy
          rw [hxy.1, hxy.2]
        rw [hp]
        dsimp only
        decide
      | Black =>
        have h60 : pos.as_index = 60 := hkb pos.as_index hidx hpiece (Or.inr hflag)
        obtain ⟨hx1, hx2, hy1, hy2⟩ := try_as_index_bounds pos hpos
        have hxy : pos.x = 101 ∧ pos.y = 56 := by
          unfold Position.as_index at h60; omega
        have hp : pos = ⟨101, 56⟩ := by
          rcases pos with ⟨px, py⟩
          dsimp only at hxy
          rw [hxy.1, hxy.2]
        rw [hp]
        dsimp only
        decide
    · simp at h


/-- Rook-direction destinations are on the board. -/
theorem phv_toPos_on_board (g : Game) (pos : Position) (piece : Piece) (gp : Bool) :
    ∀ mv ∈ possible_horizontal_vertical_moves g pos piece gp,
      mv.toPos.try_as_index.isSome = true := by
  intro mv h
  unfold possible_horizontal_vertical_moves at h
  rcases List.mem_flatMap.mp h with ⟨d, _, hm⟩
  exact gmiod_toPos_on_board _ _ _ _ _ _ _ hm

/-- Bishop-direction destinations are on the board. -/
theorem pd_toPos_on_board (g : Game) (pos : Position) (piece : Piece) (gp : Bool) :
    ∀ mv ∈ possible_diagonal_moves g pos piece gp,
      mv.toPos.try_as_index.isSome = true := by
  intro mv h
  unfold possible_diagonal_moves at h
  rcases List.mem_flatMap.mp h with ⟨d, _, hm⟩
  exact gmiod_toPos_on_board _ _ _ _ _ _ _ hm

/-- Queen-direction destinations are on the board. -/
theorem pq_toPos_on_board (g : Game) (pos : Position) (piece : Piece) (gp : Bool) :
    ∀ mv ∈ possible_queen_moves g pos piece gp,
      mv.toPos.try_as_index.isSome = true := by
  intro mv h
  unfold possible_queen_moves at h
  rcases List.mem_flatMap.mp h with ⟨d, _, hm⟩
  exact gmiod_toPos_on_board _ _ _ _ _ _ _ hm

/-- Pawn destinations are on the board under the double-push and history
invariants. -/
theorem pawn_toPos_on_board (board : Board) (history : List Move)
    (pos : Position) (piece : Piece) (gp : Bool)
    (hpos : pos.try_as_index.isSome = true)
    (hdp : ∀ lm ∈ history, lm.piece.piece_type = PieceType.Pawn →
      ((lm.fromPos.y : Int) - (lm.toPos.y : Int)).natAbs = 2 →
      (lm.toPos.y = 52 ∨ lm.toPos.y = 53))
    (hh : ∀ lm ∈ history, lm.toPos.try_as_index.isSome = true) :
    ∀ mv ∈ possbile_pawn_moves board history pos piece gp,
      mv.toPos.try_as_index.isSome = true := by
  intro mv h
  unfold possbile_pawn_moves at h
  dsimp only at h
  rcases List.mem_append.mp h with h | h
  · rcases List.mem_append.mp h with h | h
    · split at h
      · exact pawn_forward_toPos_on_board _ _ _ _ _ mv h
      · simp at h
    · exact pawn_capture_toPos_on_board _ _ _ _ _ mv h
  · split at h
    · exact pawn_enpassant_toPos_on_board board history pos piece _ rfl hpos hdp hh mv h
    · simp at h

/-- Unfiltered generated destinations are on the board under the king-home,
double-push and history invariants. -/
theorem pmu_toPos_on_board (g : Game) (pos : Position) (gp : Bool)
    (hpos : pos.try_as_index.isSome = true)
    (hkw : ∀ i, i < 64 → boardGet g.board i = some ⟨PieceType.King, Color.White⟩ →
      (colorIdx g.able_to_long_castle Color.White = true ∨
        colorIdx g.able_to_short_castle Color.White = true) → i = 4)
    (hkb : ∀ i, i < 64 → boardGet g.board i = some ⟨PieceType.King, Color.Black⟩ →
      (colorIdx g.able_to_long_castle Color.Black = true ∨
        colorIdx g.able_to_short_castle Color.Black = true) → i = 60)
    (hdp : ∀ lm ∈ g.history, lm.piece.piece_type = PieceType.Pawn →
      ((lm.fromPos.y : Int) - (lm.toPos.y : Int)).natAbs = 2 →
      (lm.toPos.y = 52 ∨ lm.toPos.y = 53))
    (hh : ∀ lm ∈ g.history, lm.toPos.try_as_index.isSome = true) :
    ∀ mv ∈ possible_moves_unfiltered g pos gp, mv.toPos.try_as_index.isSome = true := by
  intro mv h
  unfold possible_moves_unfiltered at h
  split at h
  · simp at h
  · rename_i piece hpiece
    split at h
    · simp at h
    · dsimp only at h
      have core : ∀ mv, mv ∈ (match piece.piece_type with
          | PieceType.King => possible_king_moves g pos piece gp
          | PieceType.Queen => possible_queen_moves g pos piece gp
          | PieceType.Rook => possible_horizontal_vertical_moves g pos piece gp
          | PieceType.Bishop => possible_diagonal_moves g pos piece gp
          | PieceType.Knight => possible_knight_moves g.board pos piece gp
          | PieceType.Pawn => possbile_pawn_moves g.board g.history pos piece gp) →
          mv.toPos.try_as_index.isSome = true := by
        intro mv hcm
        split at hcm
        · exact king_toPos_on_board g pos piece gp hpos hpiece (by assumption) hkw hkb mv hcm
        · exact pq_toPos_on_board g pos piece gp mv hcm
        · exact phv_toPos_on_board g pos piece gp mv hcm
        · exact pd_toPos_on_board g pos piece gp mv hcm
        · exact knight_toPos_on_board g.board pos piece gp mv hcm
        · exact pawn_toPos_on_board g.board g.history pos piece gp hpos hdp hh mv hcm
      split at h
      · split at h
        · exact core mv (List.mem_filter.mp h).1
        · exact core mv h
      · exact core mv h

/-- Generated destinations (with or without the pin filter) are on the
board under the reachability invariants. -/
theorem possible_moves_toPos_on_board (g : Game) (pos : Position) (gp fp : Bool)
    (hpos : pos.try_as_index.isSome = true)
    (hkw : ∀ i, i < 64 → boardGet g.board i = some ⟨PieceType.King, Color.White⟩ →
      (colorIdx g.able_to_long_castle Color.White = true ∨
        colorIdx g.able_to_short_castle Color.White = true) → i = 4)
    (hkb : ∀ i, i < 64 → boardGet g.board i = some ⟨PieceType.King, Color.Black⟩ →
      (colorIdx g.able_to_long_castle Color.Black = true ∨
        colorIdx g.able_to_short_castle Color.Black = true) → i = 60)
    (hdp : ∀ lm ∈ g.history, lm.piece.piece_type = PieceType.Pawn →
      ((lm.fromPos.y : Int) - (lm.toPos.y : Int)).natAbs = 2 →
      (lm.toPos.y = 52 ∨ lm.toPos.y = 53))
    (hh : ∀ lm ∈ g.history, lm.toPos.try_as_index.isSome = true) :
    ∀ mv ∈ possible_moves g pos gp fp, mv.toPos.try_as_index.isSome = true := by
  intro mv h
  unfold possible_moves at h
  dsimp only at h
  split at h
  · exact pmu_toPos_on_board g pos gp hpos hkw hkb hdp hh mv (List.mem_filter.mp h).1
  · exact pmu_toPos_on_board g pos gp hpos hkw hkb hdp hh mv h


/-- With an off-board endpoint, move validation fails. -/
theorem gmiv_offboard_none (g : Game) (fromP toP : Position)
    (hoff : fromP.try_as_index = none ∨ toP.try_as_index = none)
    (hkw : ∀ i, i < 64 → boardGet g.board i = some ⟨PieceType.King, Color.White⟩ →
      (colorIdx g.able_to_long_castle Color.White = true ∨
        colorIdx g.able_to_short_castle Color.White = true) → i = 4)
    (hkb : ∀ i, i < 64 → boardGet g.board i = some ⟨PieceType.King, Color.Black⟩ →
      (colorIdx g.able_to_long_castle Color.Black = true ∨
        colorIdx g.able_to_short_castle Color.Black = true) → i = 60)
    (hdp : ∀ lm ∈ g.history, lm.piece.piece_type = PieceType.Pawn →
      ((lm.fromPos.y : Int) - (lm.toPos.y : Int)).natAbs = 2 →
      (lm.toPos.y = 52 ∨ lm.toPos.y = 53))
    (hh : ∀ lm ∈ g.history, lm.toPos.try_as_index.isSome = true) :
    get_move_if_valid g fromP toP = none := by
  rcases hoff with hoff | hoff
  · have hobs : obstacles_in_one_move g.board fromP = some .OutOfBoundary := by
      unfold obstacles_in_one_move
      rw [hoff]
    unfold get_move_if_valid
    rw [hobs]
  · unfold get_move_if_valid
    cases hobs : obstacles_in_one_move g.board fromP with
    | none => rfl
    | some o =>
      cases o with
      | OutOfBoundary => rfl
      | Piece c =>
        have hfb : fromP.try_as_index.isSome = true := obstacles_piece_isSome _ _ _ hobs
        dsimp only
        split
        · have hfilter : (possible_moves g fromP false true).filter
              (fun x => x.toPos == toP) = [] := by
            rw [List.filter_eq_nil_iff]
            intro m hm hbeq
            have hsome := possible_moves_toPos_on_board g fromP false true hfb
              hkw hkb hdp hh m hm
            rw [eq_of_beq hbeq, hoff] at hsome
            simp at hsome
          rw [hfilter]
        · rfl


/-- C10: a Move request with either endpoint off the board (outside files
a–h or ranks 1–8) is rejected as InvalidMove with the game state returned
unchanged — the off-board coordinate is reported by `try_as_index` as a
distinct outcome and never wraps around into a valid 0..63 board index.
The guarantee is stated under the engine's reachability invariants: a color
retaining a castling right still has its king at home; every two-square
pawn advance recorded in the history landed on rank 4 or 5 (the generator
produces no other two-square pawn move, promotion pushes included); and
every historic move landed on the board. -/
theorem offboard_move_rejected (g : Game) (fromP toP : Position)
    (hoff : fromP.try_as_index = none ∨ toP.try_as_index = none)
    (hkw : ∀ i, i < 64 → boardGet g.board i = some ⟨PieceType.King, Color.White⟩ →
      (colorIdx g.able_to_long_castle Color.White = true ∨
        colorIdx g.able_to_short_castle Color.White = true) → i = 4)
    (hkb : ∀ i, i < 64 → boardGet g.board i = some ⟨PieceType.King, Color.Black⟩ →
      (colorIdx g.able_to_long_castle Color.Black = true ∨
        colorIdx g.able_to_short_castle Color.Black = true) → i = 60)
    (hdp : ∀ lm ∈ g.history, lm.piece.piece_type = PieceType.Pawn →
      ((lm.fromPos.y : Int) - (lm.toPos.y : Int)).natAbs = 2 →
      (lm.toPos.y = 52 ∨ lm.toPos.y = 53))
    (hh : ∀ lm ∈ g.history, lm.toPos.try_as_index.isSome = true) :
    process_input g (.Move fromP toP) = some (some .InvalidMove, g) := by
  unfold process_input
  dsimp only
  rw [gmiv_offboard_none g fromP toP hoff hkw hkb hdp hh]

/-- The C10 guarantee holds concretely in the fresh game for the off-board
request `Move ⟨96, 49⟩ ⟨101, 51⟩` (file char 96 is left of file a). -/
theorem offboard_move_rejected_witness :
    process_input Game.new (.Move ⟨96, 49⟩ ⟨101, 51⟩) =
      some (some .InvalidMove, Game.new) :=
  offboard_move_rejected Game.new ⟨96, 49⟩ ⟨101, 51⟩ (Or.inl (by decide))
    (by decide) (by decide) (by decide) (by decide)

/-- Witness for C5: in the `g_ep` fixture (Black just double-pushed g7-g5
beside the White f5 pawn) the White pawn's move list contains an en
passant move. -/
theorem enpassant_availability_and_effect_witness :
    ∃ mv ∈ possbile_pawn_moves g_ep.board g_ep.history ⟨102, 53⟩ ⟨.Pawn, .White⟩ false,
      mv.move_type = MoveType.Enpassant :=
  ((enpassant_availability_and_effect g_ep ⟨102, 53⟩ ⟨.Pawn, .White⟩ (by decide)
      (by decide)).1).mpr
    ⟨mv_g5, by decide, by decide, by decide, by decide, Or.inl (by decide)⟩

/-- Witness for C6: the validated push e7-e8 in `g_promo` returns the
`Promotion` outcome, keeps the turn with White, records the move and places
the pawn. -/
theorem promotion_two_step_witness :
    ∃ g2, process_input g_promo (.Move ⟨101, 55⟩ ⟨101, 56⟩) =
        some (some (.Promotion mv_promo.toPos), g2)
      ∧ g2.turn = g_promo.turn ∧ g2.history = g_promo.history ++ [mv_promo]
      ∧ g2.board = boardSet (boardSet g_promo.board (Position.as_index ⟨101, 55⟩) none)
          (Position.as_index ⟨101, 56⟩) (some mv_promo.piece) :=
  (promotion_two_step g_promo).1 ⟨101, 55⟩ ⟨101, 56⟩ mv_promo rfl (by decide)
    (by decide) (Or.inl ⟨by decide, by decide⟩)



/-- C7 counterexample: in `g_promo` (counter at 5) the pawn move e7-e8 is
applied — the promotion outcome is returned and the move recorded — yet the
fifty-move counter is neither reset nor incremented. -/
theorem fifty_counter_promotion_cex :
    (process_input g_promo (.Move ⟨101, 55⟩ ⟨101, 56⟩)).map
        (fun r => (r.1, r.2.number_of_moves_without_captures_or_pawn_moves,
          r.2.history.length)) =
      some (some (.Promotion ⟨101, 56⟩), 5, 1) := rfl

/-- The knight move g1-f3 validates in the `g_fifty` fixture. -/
theorem g_fifty_knight_valid :
    get_move_if_valid g_fifty ⟨103, 49⟩ ⟨102, 51⟩ = some mv_knight := rfl

/-- Applying the knight move in `g_fifty` returns `Draw` with the updated
state. -/
theorem g_fifty_knight_step :
    process_input g_fifty (.Move ⟨103, 49⟩ ⟨102, 51⟩) =
      some (some UserOutput.Draw, apply_valid_move g_fifty mv_knight ⟨103, 49⟩ ⟨102, 51⟩) :=
  rfl

/-- Witness for C7: in `g_fifty` (counter at 49) the quiet knight move
g1-f3 drives the counter to 50 and that same call returns `Draw`. -/
theorem fifty_move_counter_update_witness :
    ∃ g2, process_input g_fifty (.Move ⟨103, 49⟩ ⟨102, 51⟩) =
        some (some UserOutput.Draw, g2)
      ∧ g2.number_of_moves_without_captures_or_pawn_moves = 50 := by
  refine ⟨apply_valid_move g_fifty mv_knight ⟨103, 49⟩ ⟨102, 51⟩, g_fifty_knight_step, ?_⟩
  have h := ((fifty_move_counter_update g_fifty).1 ⟨103, 49⟩ ⟨102, 51⟩ mv_knight
    (some UserOutput.Draw) (apply_valid_move g_fifty mv_knight ⟨103, 49⟩ ⟨102, 51⟩)
    g_fifty_knight_valid g_fifty_knight_step (by decide)).1
  rw [h]
  decide

/-- C8 counterexample: in `g_promo` the pawn move e7-e8 is applied — the
promotion outcome is returned and the move recorded — yet no repetition
entry is created (the table stays empty). -/
theorem repetition_promotion_cex :
    (process_input g_promo (.Move ⟨101, 55⟩ ⟨101, 56⟩)).map
        (fun r => (r.1, r.2.number_of_repeated_board_states.length, r.2.history.length)) =
      some (some (.Promotion ⟨101, 56⟩), 0, 1) := rfl

/-- Witness for C8: applying the knight move g1-f3 in `g_fifty` creates
the repetition entry for the new state's key at old count + 1. -/
theorem repetition_table_update_witness :
    ∃ g2, process_input g_fifty (.Move ⟨103, 49⟩ ⟨102, 51⟩) =
        some (some UserOutput.Draw, g2)
      ∧ rep_lookup g2.number_of_repeated_board_states
          (g2.turn, g2.board, get_all_possible_moves g2) =
        some (((rep_lookup g_fifty.number_of_repeated_board_states
          (g2.turn, g2.board, get_all_possible_moves g2)).getD 0 + 1) % 256) :=
  ⟨apply_valid_move g_fifty mv_knight ⟨103, 49⟩ ⟨102, 51⟩, g_fifty_knight_step,
    ((repetition_table_update g_fifty).1 ⟨103, 49⟩ ⟨102, 51⟩ mv_knight
      (some UserOutput.Draw) (apply_valid_move g_fifty mv_knight ⟨103, 49⟩ ⟨102, 51⟩)
      g_fifty_knight_valid g_fifty_knight_step (by decide)).1⟩

end Chess
